import Mathlib

set_option maxHeartbeats 1000000
set_option linter.unreachableTactic false
set_option linter.unusedTactic false

/-! Shallow embedding of the pagser tag-directed document-to-struct binder
(`parse.go`, together with its alternate version), plus executable models of
its external collaborators (goquery selections, the spf13/cast conversion
library) and of repository code that is not among the provided source files
(the tag tokenizer `newTag` and the `toInt32SliceE`-style cast helpers); the
latter are modelled from the specification and say so in their doc comments.
All other definitions are translated from the source. -/

/-! ### String helpers

Kernel-computable models of the Go standard-library string functions the
source uses (`strings.TrimSpace`, `strings.Fields`, numeric parsing inside
spf13/cast). They work on `List Char` so that concrete witnesses evaluate
by `rfl` or `decide`. -/

def isSpaceChar (c : Char) : Bool :=
  c = ' ' || c = '\t' || c = '\n' || c = '\r'

def dropLeadingSpace : List Char → List Char
  | [] => []
  | c :: cs => if isSpaceChar c then dropLeadingSpace cs else c :: cs

/-- Model of Go `strings.TrimSpace` (restricted to ASCII whitespace). -/
def goTrim (s : String) : String :=
  ⟨dropLeadingSpace (dropLeadingSpace s.data.reverse).reverse⟩

def fieldsAux : List Char → List Char → List String
  | [], acc => if acc.isEmpty then [] else [⟨acc.reverse⟩]
  | c :: cs, acc =>
    if isSpaceChar c then
      if acc.isEmpty then fieldsAux cs [] else ⟨acc.reverse⟩ :: fieldsAux cs []
    else fieldsAux cs (c :: acc)

/-- Model of Go `strings.Fields`: split on whitespace runs. -/
def goFields (s : String) : List String := fieldsAux s.data []

def digitVal (c : Char) : Option Nat :=
  if c.isDigit then some (c.toNat - '0'.toNat) else none

def digitsValAux : List Char → Nat → Option Nat
  | [], acc => some acc
  | c :: cs, acc =>
    match digitVal c with
    | some d => digitsValAux cs (acc * 10 + d)
    | none => none

/-- Value of a nonempty all-digit character list, `none` otherwise. -/
def digitsVal (cs : List Char) : Option Nat :=
  if cs.isEmpty then none else digitsValAux cs 0

/-- Decimal integer parse with optional sign (model of the `strconv.ParseInt`
use inside spf13/cast, restricted to base 10). Returns the Go convention of
value-plus-optional-error: the zero value accompanies every error. -/
def goParseInt (s : String) : Int × Option String :=
  match s.data with
  | '-' :: rest =>
    match digitsVal rest with
    | some n => (-(n : Int), none)
    | none => (0, some ("unable to cast \"" ++ s ++ "\" of type string to int64"))
  | '+' :: rest =>
    match digitsVal rest with
    | some n => ((n : Int), none)
    | none => (0, some ("unable to cast \"" ++ s ++ "\" of type string to int64"))
  | cs =>
    match digitsVal cs with
    | some n => ((n : Int), none)
    | none => (0, some ("unable to cast \"" ++ s ++ "\" of type string to int64"))

/-- Decimal unsigned parse (model of the `strconv.ParseUint` use inside
spf13/cast); a sign or a non-digit is an error. -/
def goParseUint (s : String) : Nat × Option String :=
  match digitsVal s.data with
  | some n => (n, none)
  | none => (0, some ("unable to cast \"" ++ s ++ "\" of type string to uint64"))

/-- Model of `strconv.ParseBool`: the exact literal set Go accepts. -/
def goParseBool (s : String) : Bool × Option String :=
  if s = "1" || s = "t" || s = "T" || s = "true" || s = "TRUE" || s = "True" then
    (true, none)
  else if s = "0" || s = "f" || s = "F" || s = "false" || s = "FALSE" || s = "False" then
    (false, none)
  else
    (false, some ("unable to cast \"" ++ s ++ "\" of type string to bool"))

/-- Decimal parse of the unsigned `digits[.digits]` body, as an exact
rational (`none` on any malformed shape). -/
def goParseRatCore (cs : List Char) : Option Rat :=
  match cs.span (fun c => c.isDigit) with
  | (intPart, rest) =>
    if intPart.isEmpty then none
    else
      match rest with
      | [] => (digitsVal intPart).map (fun n => (n : Rat))
      | '.' :: frac =>
        if frac.isEmpty || !frac.all (fun c => c.isDigit) then none
        else
          match digitsVal intPart, digitsVal frac with
          | some a, some b => some ((a : Rat) + (b : Rat) / ((10 : Rat) ^ frac.length))
          | _, _ => none
      | _ => none

/-- Decimal parse of `digits[.digits]` with optional sign, as an exact
rational. Go parses to a binary float64; the claims checked here do not
depend on rounding, so the float is modelled by the exact rational. -/
def goParseRat (s : String) : Rat × Option String :=
  match s.data with
  | '-' :: rest =>
    match goParseRatCore rest with
    | some q => (-q, none)
    | none => (0, some ("unable to cast \"" ++ s ++ "\" of type string to float64"))
  | '+' :: rest =>
    match goParseRatCore rest with
    | some q => (q, none)
    | none => (0, some ("unable to cast \"" ++ s ++ "\" of type string to float64"))
  | cs =>
    match goParseRatCore cs with
    | some q => (q, none)
    | none => (0, some ("unable to cast \"" ++ s ++ "\" of type string to float64"))

/-- Truncation toward zero, the Go `int64(f)` conversion on floats. -/
def ratTrunc (q : Rat) : Int :=
  if 0 ≤ q then q.floor else q.ceil

/-- Decimal rendering of a natural number (fuel-based so it reduces in the
kernel; fuel is always sufficient at `n + 1`). -/
def natToStrAux : Nat → Nat → List Char
  | 0, _ => []
  | _ + 1, 0 => []
  | fuel + 1, n =>
    natToStrAux fuel (n / 10) ++ [Char.ofNat (n % 10 + '0'.toNat)]

def natToStr (n : Nat) : String :=
  if n = 0 then "0" else ⟨natToStrAux (n + 1) n⟩

/-- Model of Go's decimal formatting of an integer. -/
def intToStr (n : Int) : String :=
  if n < 0 then "-" ++ natToStr n.natAbs else natToStr n.natAbs

/-- Rendering of the rational standing in for a Go float64. Exact formatting
of floats is irrelevant to every claim; integral values render as integers. -/
def ratToStr (q : Rat) : String :=
  if q.den = 1 then intToStr q.num else intToStr q.num ++ "/" ++ natToStr q.den

/-- Association-list lookup, the model of map indexing used for the tag cache
and the function registry. -/
def lookupA {α : Type} : List (String × α) → String → Option α
  | [], _ => none
  | (k, x) :: rest, name => if k = name then some x else lookupA rest name

/-! ### reflect.Kind

The source dispatches on `reflect.Kind`, including the numeric range tests
`kind >= reflect.Int && kind <= reflect.Int64`; the model therefore carries
reflect's numeric codes. -/

inductive Kind where
  | Invalid | Bool | Int | Int8 | Int16 | Int32 | Int64
  | Uint | Uint8 | Uint16 | Uint32 | Uint64 | Uintptr
  | Float32 | Float64 | Array | Pointer | Slice | String | Struct
deriving DecidableEq, Repr

/-- The numeric value of each `reflect.Kind` constant in Go. -/
def Kind.code : Kind → Nat
  | .Invalid => 0 | .Bool => 1 | .Int => 2 | .Int8 => 3 | .Int16 => 4
  | .Int32 => 5 | .Int64 => 6 | .Uint => 7 | .Uint8 => 8 | .Uint16 => 9
  | .Uint32 => 10 | .Uint64 => 11 | .Uintptr => 12 | .Float32 => 13
  | .Float64 => 14 | .Array => 17 | .Pointer => 22 | .Slice => 23
  | .String => 24 | .Struct => 25

/-- Bit width used by `reflect.Value.SetInt`-style stores (the model runs on
a 64-bit platform, so `int` and `uintptr` are 64 bits wide). -/
def intWidth : Kind → Nat
  | .Int8 => 8 | .Int16 => 16 | .Int32 => 32 | _ => 64

def uintWidth : Kind → Nat
  | .Uint8 => 8 | .Uint16 => 16 | .Uint32 => 32 | _ => 64

/-- Two's-complement wrap of an integer to `w` bits, the effect of storing
an `int64` into a narrower signed field. -/
def signedWrap (w : Nat) (n : Int) : Int :=
  (n + 2 ^ (w - 1)) % (2 ^ w : Nat) - 2 ^ (w - 1)

/-- Wrap of a natural to `w` bits, the effect of storing a `uint64` into a
narrower unsigned field. -/
def unsignedWrap (w : Nat) (n : Nat) : Nat :=
  n % 2 ^ w

/-! ### Dynamic values and the spf13/cast model

`GoVal` is the `interface{}` universe that extraction functions return and
the casting layer consumes: scalars and slices of scalars, plus `nil`.
The cast library is an external dependency of the repository (pinned at
v1.5.1 by go.mod); it is modelled here by its v1.5.1 behavior: every
`To<T>E` function returns a value together with an optional error. The
scalar casts return `T`'s zero value whenever the error is set; the bool
and int slice casts return a zero-length non-nil slice alongside every
error; the string-slice cast builds on `var a []string` and returns that
nil slice (modelled as `none`) on every error path. Every `To<T>` function
returns the first component of `To<T>E`. -/

inductive GoVal where
  | vString (s : String)
  | vBool (b : Bool)
  | vInt (n : Int)
  | vFloat (q : Rat)
  | vStringSlice (xs : List String)
  | vBoolSlice (xs : List Bool)
  | vIntSlice (xs : List Int)
  | vFloatSlice (xs : List Rat)
  | vNil
deriving DecidableEq, Repr

def toBoolE : GoVal → Bool × Option String
  | .vBool b => (b, none)
  | .vInt n => (decide (n ≠ 0), none)
  | .vFloat q => (decide (q ≠ 0), none)
  | .vString s => goParseBool s
  | .vNil => (false, none)
  | _ => (false, some "unable to cast value of this type to bool")

def toInt64E : GoVal → Int × Option String
  | .vInt n => (n, none)
  | .vBool b => (cond b 1 0, none)
  | .vFloat q => (ratTrunc q, none)
  | .vString s => goParseInt s
  | .vNil => (0, none)
  | _ => (0, some "unable to cast value of this type to int64")

def toUint64E : GoVal → Nat × Option String
  | .vInt n =>
    if n < 0 then (0, some "unable to cast negative value to uint64") else (n.toNat, none)
  | .vBool b => (cond b 1 0, none)
  | .vFloat q =>
    if q < 0 then (0, some "unable to cast negative value to uint64")
    else ((ratTrunc q).toNat, none)
  | .vString s => goParseUint s
  | .vNil => (0, none)
  | _ => (0, some "unable to cast value of this type to uint64")

def toFloat64E : GoVal → Rat × Option String
  | .vFloat q => (q, none)
  | .vInt n => ((n : Rat), none)
  | .vBool b => (cond b 1 0, none)
  | .vString s => goParseRat s
  | .vNil => (0, none)
  | _ => (0, some "unable to cast value of this type to float64")

def toStringE : GoVal → String × Option String
  | .vString s => (s, none)
  | .vBool b => (cond b "true" "false", none)
  | .vInt n => (intToStr n, none)
  | .vFloat q => (ratToStr q, none)
  | .vNil => ("", none)
  | _ => ("", some "unable to cast value of this type to string")

/-- A slice-valued `GoVal` as a list of element values, `none` when the value
is not slice-shaped. -/
def asGoList : GoVal → Option (List GoVal)
  | .vStringSlice xs => some (xs.map GoVal.vString)
  | .vBoolSlice xs => some (xs.map GoVal.vBool)
  | .vIntSlice xs => some (xs.map GoVal.vInt)
  | .vFloatSlice xs => some (xs.map GoVal.vFloat)
  | _ => none

/-- Pointwise element cast over a slice, with the cast library's convention
of returning the empty slice alongside the first element error. -/
def mapCastE {α : Type} (f : GoVal → α × Option String) : List GoVal → List α × Option String
  | [] => ([], none)
  | v :: vs =>
    match f v with
    | (_, some e) => ([], some e)
    | (x, none) =>
      match mapCastE f vs with
      | (_, some e) => ([], some e)
      | (xs, none) => (x :: xs, none)

/-- Pointwise element cast that degrades to the nil slice alongside the
first element error; used by the spec-modelled slice helpers, whose
failures degrade to the slice type's zero value per §4.4. -/
def mapCastNilE {α : Type} (f : GoVal → α × Option String) (l : List GoVal) :
    Option (List α) × Option String :=
  match mapCastE f l with
  | (_, some e) => (none, some e)
  | (xs, none) => (some xs, none)

def toBoolSliceE (v : GoVal) : List Bool × Option String :=
  match v with
  | .vNil => ([], some "unable to cast nil to []bool")
  | _ =>
    match asGoList v with
    | some l => mapCastE toBoolE l
    | none => ([], some "unable to cast value of this type to []bool")

def toIntSliceE (v : GoVal) : List Int × Option String :=
  match v with
  | .vNil => ([], some "unable to cast nil to []int")
  | _ =>
    match asGoList v with
    | some l => mapCastE toInt64E l
    | none => ([], some "unable to cast value of this type to []int")

/-- Model of v1.5.1 `ToStringSliceE`. Unlike the bool/int slice casters it
builds on `var a []string`, so every error path returns that nil slice
(`none` here). Enumerated slice inputs (`[]int`, `[]float64`, ...) map
`ToString` over the elements with `append` — an empty enumerated input
therefore also leaves the nil slice; a `[]string` input is returned as-is
(its own nil-ness is not representable in `GoVal`); a string splits on
whitespace (`strings.Fields`); a non-nil scalar is cast through the
`interface{}` arm into a one-element slice via `ToStringE`; `[]bool` is not
among the enumerated cases and fails through that same arm, and a nil
input falls to the failing default. -/
def toStringSliceE (v : GoVal) : Option (List String) × Option String :=
  match v with
  | .vStringSlice xs => (some xs, none)
  | .vIntSlice xs => (if xs.isEmpty then none else some (xs.map intToStr), none)
  | .vFloatSlice xs => (if xs.isEmpty then none else some (xs.map ratToStr), none)
  | .vString s => (some (goFields s), none)
  | .vBool b => (some [cond b "true" "false"], none)
  | .vInt n => (some [intToStr n], none)
  | .vFloat q => (some [ratToStr q], none)
  | .vBoolSlice _ => (none, some "unable to cast value of this type to []string")
  | .vNil => (none, some "unable to cast value of this type to []string")

/-- Modelled from the spec: the helpers `toInt32SliceE`, `toInt64SliceE`,
`toFloat32SliceE` and `toFloat64SliceE` belong to this repository but are not
among the provided source files; per §4.4 each applies the corresponding
element conversion pointwise over an iterable input (the 32-bit integer
variant narrowing like the Go `int32` conversion does), and a failure
degrades to the slice type's zero value — the nil slice (`none`). -/
def toInt32SliceE (v : GoVal) : Option (List Int) × Option String :=
  match asGoList v with
  | some l => mapCastNilE (fun x => let (n, e) := toInt64E x; (signedWrap 32 n, e)) l
  | none => (none, some "unable to cast value of this type to []int32")

/-- Modelled from the spec: see `toInt32SliceE`. -/
def toInt64SliceE (v : GoVal) : Option (List Int) × Option String :=
  match asGoList v with
  | some l => mapCastNilE toInt64E l
  | none => (none, some "unable to cast value of this type to []int64")

/-- Modelled from the spec: see `toInt32SliceE`. The 32-bit float narrowing
is the identity on the rational model. -/
def toFloat32SliceE (v : GoVal) : Option (List Rat) × Option String :=
  match asGoList v with
  | some l => mapCastNilE toFloat64E l
  | none => (none, some "unable to cast value of this type to []float32")

/-- Modelled from the spec: see `toInt32SliceE`. -/
def toFloat64SliceE (v : GoVal) : Option (List Rat) × Option String :=
  match asGoList v with
  | some l => mapCastNilE toFloat64E l
  | none => (none, some "unable to cast value of this type to []float64")

/-- The error-discarding cast variants: first component of the `E` variant,
exactly how spf13/cast defines them. -/
def toBool0 (v : GoVal) : Bool := (toBoolE v).1

def toInt64 (v : GoVal) : Int := (toInt64E v).1

def toUint64 (v : GoVal) : Nat := (toUint64E v).1

def toFloat64 (v : GoVal) : Rat := (toFloat64E v).1

def toString0 (v : GoVal) : String := (toStringE v).1

def toBoolSlice (v : GoVal) : List Bool := (toBoolSliceE v).1

def toIntSlice (v : GoVal) : List Int := (toIntSliceE v).1

def toStringSlice (v : GoVal) : Option (List String) := (toStringSliceE v).1

/-- Modelled from the spec: see `toInt32SliceE`. -/
def toInt32Slice (v : GoVal) : Option (List Int) := (toInt32SliceE v).1

/-- Modelled from the spec: see `toInt32SliceE`. -/
def toInt64Slice (v : GoVal) : Option (List Int) := (toInt64SliceE v).1

/-- Modelled from the spec: see `toInt32SliceE`. -/
def toFloat32Slice (v : GoVal) : Option (List Rat) := (toFloat32SliceE v).1

/-- Modelled from the spec: see `toInt32SliceE`. -/
def toFloat64Slice (v : GoVal) : Option (List Rat) := (toFloat64SliceE v).1

/-! ### Selections (the external goquery engine)

The binder consumes selections only through the narrow interface of §6:
find matching nodes, get concatenated text, count and iterate nodes. A
document is a pair of query functions over abstract node identifiers, and a
selection is an ordered node list within a document. -/

structure Doc where
  findFrom : Nat → String → List Nat
  textOf : Nat → String

structure Selection where
  doc : Doc
  nodes : List Nat

/-- goquery `Selection.Find`: matching descendants of every node, in order. -/
def Selection.find (s : Selection) (selector : String) : Selection :=
  ⟨s.doc, (s.nodes.map (fun n => s.doc.findFrom n selector)).flatten⟩

/-- goquery `Selection.Text`: concatenated text of all nodes. -/
def Selection.text (s : Selection) : String :=
  String.join (s.nodes.map s.doc.textOf)

/-- goquery `Selection.Size`: the number of nodes. -/
def Selection.size (s : Selection) : Nat := s.nodes.length

/-- The single-node selection goquery passes to an `Each` callback. -/
def Selection.single (s : Selection) (n : Nat) : Selection := ⟨s.doc, [n]⟩

/-! ### Functions invoked from tags

A tag-named function returns either a sub-selection (continuing the
descent) or a terminal value (to be cast into the field); this is the
`interface{}` result that `doParseStruct` type-switches on. Methods take
only the node and return a value with an optional error (`execMethod`
extracts the trailing error); registry functions additionally take the
tag's string arguments. -/

inductive CallOut where
  | selection (s : Selection)
  | value (g : GoVal)

def MethodFn := Selection → CallOut × Option String

def RegFn := Selection → List String → Except String CallOut

/-- The parsed form of one raw tag: `tagTokenizer` in the source. -/
structure TagTokenizer where
  Selector : String
  FuncName : String
  FuncParams : List String
deriving DecidableEq, Repr

structure Config where
  TagName : String
  FuncSymbol : String
  CastError : Bool
  Debug : Bool

/-- The engine: configuration, expression cache and function registry.
Both maps are `sync.Map`s in Go; one bind call observes them as plain
lookups, modelled by association lists. The cache write on a miss is
elided: `newTag` is pure, so memoization does not change any bind result. -/
structure Pagser where
  Config : Config
  mapTags : List (String × TagTokenizer)
  mapFuncs : List (String × RegFn)

/-! ### Field stores and the two casting implementations

`FVal` is the value a `reflect.Value.Set*` call leaves in a field: typed
scalars (with the wrap a narrowing store performs), the seven supported
slice-of-scalar shapes, or a raw passthrough for every other kind (where Go
assigns the dynamic value unchanged, panicking on a type mismatch; the
mismatch panic is outside every handled kind and is not modelled). The
string/int32/int64/float32/float64 slice stores carry an `Option` so that a
stored nil slice (`none`) stays distinguishable from a stored empty slice,
as it is in Go; the bool and int slice stores are plain lists because their
casters never return a nil slice. -/

inductive FVal where
  | fBool (b : Bool)
  | fInt (k : Kind) (n : Int)
  | fUint (k : Kind) (n : Nat)
  | fFloat (k : Kind) (q : Rat)
  | fStr (s : String)
  | fBoolSlice (xs : List Bool)
  | fIntSlice (xs : List Int)
  | fInt32Slice (xs : Option (List Int))
  | fInt64Slice (xs : Option (List Int))
  | fFloat32Slice (xs : Option (List Rat))
  | fFloat64Slice (xs : Option (List Rat))
  | fStrSlice (xs : Option (List String))
  | fRaw (v : GoVal)
deriving DecidableEq, Repr

/-- Embedding of `setRefectValue` (parse.go). `kind` is the field kind the
caller passes (`fieldType.Type.Kind()`), `elemKind` stands for
`fieldValue.Type().Elem().Kind()`, consulted only in the slice/array case.
The range tests mirror the source's `reflect.Kind` comparisons. `SetInt`
and `SetUint` narrow to the field's width, modelled by the wrap functions;
`SetFloat` narrowing to float32 is the identity on the rational model. -/
def setRefectValue (p : Pagser) (kind : Kind) (elemKind : Kind) (v : GoVal) : Except String FVal :=
  if kind = Kind.Bool then
    if p.Config.CastError then
      match toBoolE v with
      | (_, some e) => .error e
      | (kv, none) => .ok (.fBool kv)
    else .ok (.fBool (toBool0 v))
  else if Kind.Int.code ≤ kind.code ∧ kind.code ≤ Kind.Int64.code then
    if p.Config.CastError then
      match toInt64E v with
      | (_, some e) => .error e
      | (kv, none) => .ok (.fInt kind (signedWrap (intWidth kind) kv))
    else .ok (.fInt kind (signedWrap (intWidth kind) (toInt64 v)))
  else if Kind.Uint.code ≤ kind.code ∧ kind.code ≤ Kind.Uintptr.code then
    if p.Config.CastError then
      match toUint64E v with
      | (_, some e) => .error e
      | (kv, none) => .ok (.fUint kind (unsignedWrap (uintWidth kind) kv))
    else .ok (.fUint kind (unsignedWrap (uintWidth kind) (toUint64 v)))
  else if kind = Kind.Float32 ∨ kind = Kind.Float64 then
    if p.Config.CastError then
      match toFloat64E v with
      | (_, some e) => .error e
      | (value, none) => .ok (.fFloat kind value)
    else .ok (.fFloat kind (toFloat64 v))
  else if kind = Kind.String then
    if p.Config.CastError then
      match toStringE v with
      | (_, some e) => .error e
      | (kv, none) => .ok (.fStr kv)
    else .ok (.fStr (toString0 v))
  else if kind = Kind.Slice ∨ kind = Kind.Array then
    if p.Config.CastError then
      match elemKind with
      | .Bool =>
        match toBoolSliceE v with
        | (_, some e) => .error e
        | (kv, none) => .ok (.fBoolSlice kv)
      | .Int =>
        match toIntSliceE v with
        | (_, some e) => .error e
        | (kv, none) => .ok (.fIntSlice kv)
      | .Int32 =>
        match toInt32SliceE v with
        | (_, some e) => .error e
        | (kv, none) => .ok (.fInt32Slice kv)
      | .Int64 =>
        match toInt64SliceE v with
        | (_, some e) => .error e
        | (kv, none) => .ok (.fInt64Slice kv)
      | .Float32 =>
        match toFloat32SliceE v with
        | (_, some e) => .error e
        | (kv, none) => .ok (.fFloat32Slice kv)
      | .Float64 =>
        match toFloat64SliceE v with
        | (_, some e) => .error e
        | (kv, none) => .ok (.fFloat64Slice kv)
      | .String =>
        match toStringSliceE v with
        | (_, some e) => .error e
        | (kv, none) => .ok (.fStrSlice kv)
      | _ => .ok (.fRaw v)
    else
      match elemKind with
      | .Bool => .ok (.fBoolSlice (toBoolSlice v))
      | .Int => .ok (.fIntSlice (toIntSlice v))
      | .Int32 => .ok (.fInt32Slice (toInt32Slice v))
      | .Int64 => .ok (.fInt64Slice (toInt64Slice v))
      | .Float32 => .ok (.fFloat32Slice (toFloat32Slice v))
      | .Float64 => .ok (.fFloat64Slice (toFloat64Slice v))
      | .String => .ok (.fStrSlice (toStringSlice v))
      | _ => .ok (.fRaw v)
  else .ok (.fRaw v)

/-- The intermediate `castValueInterface` of the alternate `setFieldValue`:
a dynamically typed cast result, before the reflect `Convert`-and-`Set`. -/
inductive CastMid where
  | mBool (b : Bool)
  | mInt64 (n : Int)
  | mUint64 (n : Nat)
  | mFloat64 (q : Rat)
  | mStr (s : String)
  | mBoolSlice (xs : List Bool)
  | mIntSlice (xs : List Int)
  | mInt32Slice (xs : Option (List Int))
  | mInt64Slice (xs : Option (List Int))
  | mFloat32Slice (xs : Option (List Rat))
  | mFloat64Slice (xs : Option (List Rat))
  | mStrSlice (xs : Option (List String))
  | mRaw (v : GoVal)
deriving DecidableEq, Repr

/-- The alternate version's final `Convert`-if-needed and `Set`: an `int64`
or `uint64` cast result stored into a narrower field converts with the Go
wrap; a matching type stores unchanged; the raw passthrough stores the
dynamic value (a type mismatch would panic in Go — unreachable for the
handled kinds). -/
def convertToField (kind : Kind) (mid : CastMid) : FVal :=
  match mid with
  | .mBool b => .fBool b
  | .mInt64 n => .fInt kind (signedWrap (intWidth kind) n)
  | .mUint64 n => .fUint kind (unsignedWrap (uintWidth kind) n)
  | .mFloat64 q => .fFloat kind q
  | .mStr s => .fStr s
  | .mBoolSlice xs => .fBoolSlice xs
  | .mIntSlice xs => .fIntSlice xs
  | .mInt32Slice xs => .fInt32Slice xs
  | .mInt64Slice xs => .fInt64Slice xs
  | .mFloat32Slice xs => .fFloat32Slice xs
  | .mFloat64Slice xs => .fFloat64Slice xs
  | .mStrSlice xs => .fStrSlice xs
  | .mRaw v => .fRaw v

/-- Embedding of `setFieldValue` (the alternate version of the source):
always run the error-reporting cast, keep its value, fail only when an
error occurred **and** strict casting is enabled, then convert and set. -/
def setFieldValue (p : Pagser) (kind : Kind) (elemKind : Kind) (value : GoVal) : Except String FVal :=
  let step : CastMid × Option String :=
    if kind = Kind.Bool then
      let (b, e) := toBoolE value; (.mBool b, e)
    else if kind = Kind.Int ∨ kind = Kind.Int8 ∨ kind = Kind.Int16 ∨
        kind = Kind.Int32 ∨ kind = Kind.Int64 then
      let (n, e) := toInt64E value; (.mInt64 n, e)
    else if kind = Kind.Uint ∨ kind = Kind.Uint8 ∨ kind = Kind.Uint16 ∨
        kind = Kind.Uint32 ∨ kind = Kind.Uint64 ∨ kind = Kind.Uintptr then
      let (n, e) := toUint64E value; (.mUint64 n, e)
    else if kind = Kind.Float32 ∨ kind = Kind.Float64 then
      let (q, e) := toFloat64E value; (.mFloat64 q, e)
    else if kind = Kind.String then
      let (s, e) := toStringE value; (.mStr s, e)
    else if kind = Kind.Slice ∨ kind = Kind.Array then
      match elemKind with
      | .Bool => let (xs, e) := toBoolSliceE value; (.mBoolSlice xs, e)
      | .Int => let (xs, e) := toIntSliceE value; (.mIntSlice xs, e)
      | .Int32 => let (xs, e) := toInt32SliceE value; (.mInt32Slice xs, e)
      | .Int64 => let (xs, e) := toInt64SliceE value; (.mInt64Slice xs, e)
      | .Float32 => let (xs, e) := toFloat32SliceE value; (.mFloat32Slice xs, e)
      | .Float64 => let (xs, e) := toFloat64SliceE value; (.mFloat64Slice xs, e)
      | .String => let (xs, e) := toStringSliceE value; (.mStrSlice xs, e)
      | _ => (.mRaw value, none)
    else (.mRaw value, none)
  match step with
  | (mid, err) =>
    match err with
    | some e => if p.Config.CastError then .error e else .ok (convertToField kind mid)
    | none => .ok (convertToField kind mid)

/-! ### Target types

The bind target walked by `doParse` is a nested Go type: scalar kinds,
pointers, slices, and structs whose fields carry the raw tag value declared
under the configured tag name (absent when the field has no such tag, the
`Tag.Lookup` result). A struct type also carries its method set — the
methods `reflect.Value.MethodByName` can reach from the addressable struct
value being populated, value and pointer receivers together (every struct
value the binder passes to `findAndExecFunc` is addressable, so the
value/pointer split in `findMethod` collapses to one set). Methods in this
model are functions of the node only, which is exactly what `execMethod`
passes them. -/

structure FieldD' (ty : Type) where
  name : String
  tag : Option String
  fty : ty

inductive Ty where
  | prim (k : Kind)
  | ptr (t : Ty)
  | slice (t : Ty)
  | struct (fields : List (FieldD' Ty)) (methods : List (String × MethodFn))

abbrev FieldD := FieldD' Ty

/-! Structural size used as the termination measure of the binder. -/

mutual
def tySize : Ty → Nat
  | .prim _ => 1
  | .ptr t => tySize t + 1
  | .slice t => tySize t + 1
  | .struct fields _ => fieldsSize fields + 1
def fieldsSize : List FieldD → Nat
  | [] => 0
  | f :: fs => tySize f.fty + fieldsSize fs + 1
end

/-- The `reflect.Kind` of a modelled type. -/
def kindOfTy : Ty → Kind
  | .prim k => k
  | .ptr _ => .Pointer
  | .slice _ => .Slice
  | .struct _ _ => .Struct

/-- The element kind `fieldValue.Type().Elem().Kind()` of a slice type
(only consulted by the caster in the slice case). -/
def elemKindOfTy : Ty → Kind
  | .slice t => kindOfTy t
  | _ => .Invalid

/-! ### Runtime values

`Val` is the shape of a value under construction: a typed scalar or cast
store (`fv`), a possibly-nil pointer, a possibly-nil slice of elements, or
a struct given by its field values in declaration order. A nil slice and an
empty slice are distinct, as in Go. -/

inductive Val where
  | fv (f : FVal)
  | ptr (v : Option Val)
  | slice (v : Option (List Val))
  | struct (fs : List Val)

/-- Whether a slice-typed value is the nil slice — the Go-observable
`== nil` test (a zero-length non-nil slice answers `false`; a stored nil
cast result answers `true`). -/
def isNilSliceVal : Val → Bool
  | .slice none => true
  | .fv (.fStrSlice none) => true
  | .fv (.fInt32Slice none) => true
  | .fv (.fInt64Slice none) => true
  | .fv (.fFloat32Slice none) => true
  | .fv (.fFloat64Slice none) => true
  | _ => false

/-- The zero of a primitive kind, as left by `reflect.New`. -/
def zeroFVal (k : Kind) : FVal :=
  if k = Kind.Bool then .fBool false
  else if Kind.Int.code ≤ k.code ∧ k.code ≤ Kind.Int64.code then .fInt k 0
  else if Kind.Uint.code ≤ k.code ∧ k.code ≤ Kind.Uintptr.code then .fUint k 0
  else if k = Kind.Float32 ∨ k = Kind.Float64 then .fFloat k 0
  else if k = Kind.String then .fStr ""
  else .fRaw .vNil

/-! The Go zero value of a type: zero scalars, nil pointers, nil slices,
zeroed structs — what `reflect.New` leaves behind. -/

mutual
def zeroVal : Ty → Val
  | .prim k => .fv (zeroFVal k)
  | .ptr _ => .ptr none
  | .slice _ => .slice none
  | .struct fields _ => .struct (zeroFields fields)
def zeroFields : List FieldD → List Val
  | [] => []
  | f :: fs => zeroVal f.fty :: zeroFields fs
end

/-! ### Function resolution (`findAndExecFunc` and its helpers) -/

/-- Embedding of `findMethod`: the method of that name reachable from the
(addressable) struct value, i.e. a lookup in the struct type's method set;
any non-struct value has no methods here. -/
def findMethod (ty : Ty) (funcName : String) : Option MethodFn :=
  match ty with
  | .struct _ methods => lookupA methods funcName
  | _ => none

/-- The `for i := size - 1; i >= 0; i--` search over the ancestor chain:
the last-pushed (innermost) ancestor is consulted first. -/
def findMethodInStack (stackValues : List Ty) (funcName : String) : Option MethodFn :=
  match stackValues with
  | [] => none
  | t :: ts =>
    match findMethodInStack ts funcName with
    | some m => some m
    | none => findMethod t funcName

/-! ### Errors

The source wraps errors with `fmt.Errorf`; the format strings become
structured constructors so that "wrapped with the offending tag text" is
the constructor carrying that tag. Panics (which Go does not wrap) travel
on a separate channel. -/

inductive Err where
  | nonPointer
  | isNil
  | notAStruct
  | malformedTag (tag : String)
  | methodNotFound (name : String)
  | methodReturnError (name : String) (msg : String)
  | registeredFuncError (name : String) (msg : String)
  | parseFuncError (tag : String) (e : Err)
  | setValueError (tag : String) (msg : String)
  | parserError (tag : String) (e : Err)
deriving DecidableEq, Repr

inductive Failure where
  | goErr (e : Err)
  | panicked (msg : String)
deriving DecidableEq, Repr

/-- The raw tag text an error is wrapped with, when any. -/
def Err.tagOf : Err → Option String
  | .malformedTag t => some t
  | .parseFuncError t _ => some t
  | .setValueError t _ => some t
  | .parserError t _ => some t
  | _ => none

/-- The `fmt.Errorf("tag=...parser error: %v", ...)` wrap applied to an
error coming back from a recursive `doParse`; a panic propagates unwrapped. -/
def wrapParser (tag : String) : Failure → Failure
  | .goErr e => .goErr (.parserError tag e)
  | .panicked m => .panicked m

/-- Embedding of `execMethod`: call the method with only the node; a
non-nil trailing error aborts with the `method ... return error` wrap,
otherwise the first return value is the result. (The `not return any
value` branch is unreachable here: modelled methods always return.) -/
def execMethod (callMethod : MethodFn) (selTag : TagTokenizer) (node : Selection) : Except Err CallOut :=
  match callMethod node with
  | (_, some msg) => .error (.methodReturnError selTag.FuncName msg)
  | (v, none) => .ok v

/-- Embedding of `findAndExecFunc`: empty name short-circuits to the
trimmed node text; otherwise own-struct method, then ancestor methods
innermost-to-outermost, then the registry (whose errors get the
`call registered func` wrap), and finally `method not found`. -/
def findAndExecFunc (p : Pagser) (val : Ty) (stackValues : List Ty) (selTag : TagTokenizer)
    (node : Selection) : Except Err CallOut :=
  if selTag.FuncName = "" then
    .ok (.value (.vString (goTrim node.text)))
  else
    match findMethod val selTag.FuncName with
    | some callMethod => execMethod callMethod selTag node
    | none =>
      match findMethodInStack stackValues selTag.FuncName with
      | some callMethod => execMethod callMethod selTag node
      | none =>
        match lookupA p.mapFuncs selTag.FuncName with
        | some cfn =>
          match cfn node selTag.FuncParams with
          | .error e => .error (.registeredFuncError selTag.FuncName e)
          | .ok outValue => .ok outValue
        | none => .error (.methodNotFound selTag.FuncName)

/-! ### The tag tokenizer and cache -/

/-- The ignore marker (`ignoreSymbol` in the source, per the spec `-`). -/
def ignoreSymbol : String := "-"

/-- Split a character list at the first occurrence of a separator. -/
def splitOnceOn (sep : List Char) : List Char → Option (List Char × List Char)
  | [] => if sep = [] then some ([], []) else none
  | c :: cs =>
    if sep.isPrefixOf (c :: cs) then some ([], (c :: cs).drop sep.length)
    else
      match splitOnceOn sep cs with
      | some (pre, post) => some (c :: pre, post)
      | none => none

/-- Split a character list on every occurrence of `,`. -/
def splitCommas : List Char → List (List Char)
  | [] => [[]]
  | c :: cs =>
    if c = ',' then [] :: splitCommas cs
    else
      match splitCommas cs with
      | [] => [[c]]
      | g :: gs => (c :: g) :: gs

/-- Modelled from the spec: the tag tokenizer `newTag` belongs to this
repository but is not among the provided source files. Per §4.1 it splits
the raw tag on the configured function symbol into a selector part and an
optional call part; a non-empty call part must match `Name(arg1, ...)`,
with comma-separated, whitespace-trimmed arguments (quoted-argument
escaping is not exercised by any claim and is not modelled); a call part
that does not have the `Name(...)` shape is a malformed-expression error,
which per §7 is wrapped with the offending tag text. -/
def newTag (cfg : Config) (tagValue : String) : Except Err TagTokenizer :=
  match splitOnceOn cfg.FuncSymbol.data tagValue.data with
  | none => .ok ⟨goTrim tagValue, "", []⟩
  | some (selPart, callPart) =>
    match splitOnceOn ['('] callPart with
    | none => .error (.malformedTag tagValue)
    | some (namePart, afterParen) =>
      match splitOnceOn [')'] afterParen with
      | none => .error (.malformedTag tagValue)
      | some (argsPart, trail) =>
        if goTrim ⟨namePart⟩ = "" ∨ trail ≠ [] then .error (.malformedTag tagValue)
        else
          let args :=
            if goTrim ⟨argsPart⟩ = "" then []
            else (splitCommas argsPart).map (fun a => goTrim ⟨a⟩)
          .ok ⟨goTrim ⟨selPart⟩, goTrim ⟨namePart⟩, args⟩

/-- The expression-cache read path of `doParseStruct`: consult `mapTags`,
on a miss tokenize. (The cache store is elided: `newTag` is pure, so the
memoization has no observable effect on any bind result.) -/
def getTag (p : Pagser) (tagValue : String) : Except Err TagTokenizer :=
  match lookupA p.mapTags tagValue with
  | some tag => .ok tag
  | none => newTag p.Config tagValue

/-! ### Per-field processing

Everything `doParseStruct` does to one field short of the recursive calls:
tag lookup and the two skip cases, tokenizing (cache-checked), selector
resolution, function resolution/invocation, and the terminal-value cast.
The directive says how the loop continues: skip the field, abort with an
error, store a terminal value and move on, or recurse into the field's
shape with the (possibly function-replaced) node. -/

inductive FieldDirective where
  | skip
  | fail (e : Err)
  | terminal (v : Val)
  | recurse (tagValue : String) (node : Selection)

def processFieldStep (p : Pagser) (selfTy : Ty) (stackValues : List Ty) (sel : Selection)
    (f : FieldD) : FieldDirective :=
  match f.tag with
  | none => .skip
  | some tagValue =>
    if tagValue = ignoreSymbol then .skip
    else
      match getTag p tagValue with
      | .error e => .fail e
      | .ok tag =>
        let node := if tag.Selector = "" then sel else sel.find tag.Selector
        if tag.FuncName = "" then .recurse tagValue node
        else
          match findAndExecFunc p selfTy stackValues tag node with
          | .error callErr => .fail (.parseFuncError tagValue callErr)
          | .ok (.selection subNode) => .recurse tagValue subNode
          | .ok (.value callOutValue) =>
            match setRefectValue p (kindOfTy f.fty) (elemKindOfTy f.fty) callOutValue with
            | .error msg => .fail (.setValueError tagValue msg)
            | .ok fvOut => .terminal (.fv fvOut)

/-! ### The recursive binder

`doParse` dispatches on the target kind exactly as the source does:
pointer, struct, slice, and the default branch which calls `SetString`
with the trimmed selection text — a call that succeeds only on a
string-kinded value and panics on every other kind reaching it.
`doParseStruct` iterates the fields, threading the ancestor chain the way
the Go loop variable does (appended once per field that recurses, before
the recursion). `doParseSlice` reuses a non-nil incoming slice in place
and allocates (`reflect.MakeSlice`) with one zero element per matched node
when the incoming slice is nil; `doParseSliceLoop` is the `EachWithBreak`
body, indexing `slice.Index(i)` — out of range panics. -/

/-- The struct field values carried by a value (`reflect` guarantees the
value matches its type; any mismatch falls back to the zero fields). -/
def structVals (fields : List FieldD) : Val → List Val
  | .struct fs => fs
  | _ => zeroFields fields

/-- The element list of a slice-shaped value, `none` for the nil slice. -/
def sliceVals : Val → Option (List Val)
  | .slice s => s
  | _ => none

/-- The pointee of a pointer value; a nil pointer is replaced by a fresh
zero value of the pointee type (`reflect.New`), as `doParsePointer` does. -/
def ptrInner (t : Ty) : Val → Val
  | .ptr (some iv) => iv
  | _ => zeroVal t

mutual

def doParse (p : Pagser) (ty : Ty) (v : Val) (stackValues : List Ty) (sel : Selection) :
    Except Failure Val :=
  match ty with
  | .ptr t => doParsePointer p t v stackValues sel
  | .struct fields methods =>
    match doParseStruct p (.struct fields methods) fields (structVals fields v) stackValues sel with
    | .error e => .error e
    | .ok fs2 => .ok (.struct fs2)
  | .slice t => doParseSlice p t v stackValues sel
  | .prim k =>
    if k = Kind.String then .ok (.fv (.fStr (goTrim sel.text)))
    else .error (.panicked "reflect: call of reflect.Value.SetString on non-string Value")
termination_by (tySize ty, 2)
decreasing_by all_goals decreasing_with first | omega | (simp only [tySize, fieldsSize]; omega)

def doParsePointer (p : Pagser) (t : Ty) (v : Val) (stackValues : List Ty) (sel : Selection) :
    Except Failure Val :=
  match doParse p t (ptrInner t v) stackValues sel with
  | .error err => .error err
  | .ok iv2 => .ok (.ptr (some iv2))
termination_by (tySize t + 1, 1)
decreasing_by all_goals decreasing_with first | omega | (simp only [tySize, fieldsSize]; omega)

def doParseStruct (p : Pagser) (selfTy : Ty) (fields : List FieldD) (vals : List Val)
    (stackValues : List Ty) (sel : Selection) : Except Failure (List Val) :=
  match fields with
  | [] => .ok []
  | f :: fs =>
    let fv := vals.headD (zeroVal f.fty)
    let fvs := vals.tail
    match processFieldStep p selfTy stackValues sel f with
    | .skip =>
      match doParseStruct p selfTy fs fvs stackValues sel with
      | .error e => .error e
      | .ok rest => .ok (fv :: rest)
    | .fail e => .error (.goErr e)
    | .terminal newV =>
      match doParseStruct p selfTy fs fvs stackValues sel with
      | .error e => .error e
      | .ok rest => .ok (newV :: rest)
    | .recurse tagValue node =>
      let stackValues2 := stackValues ++ [selfTy]
      match doParse p f.fty fv stackValues2 node with
      | .error e => .error (wrapParser tagValue e)
      | .ok fv2 =>
        match doParseStruct p selfTy fs fvs stackValues2 sel with
        | .error e => .error e
        | .ok rest => .ok (fv2 :: rest)
termination_by (fieldsSize fields, 1)
decreasing_by all_goals decreasing_with first | omega | (simp only [tySize, fieldsSize]; omega)

def doParseSlice (p : Pagser) (t : Ty) (v : Val) (stackValues : List Ty) (sel : Selection) :
    Except Failure Val :=
  match sliceVals v with
  | none =>
    match doParseSliceLoop p t (List.replicate sel.nodes.length (zeroVal t)) 0 sel.nodes
        sel.doc stackValues with
    | .error e => .error e
    | .ok xs => .ok (.slice (some xs))
  | some xs0 =>
    match doParseSliceLoop p t xs0 0 sel.nodes sel.doc stackValues with
    | .error e => .error e
    | .ok xs => .ok (.slice (some xs))
termination_by (tySize t + 1, 1)
decreasing_by all_goals decreasing_with first | omega | (simp only [tySize, fieldsSize]; omega)

def doParseSliceLoop (p : Pagser) (t : Ty) (xs : List Val) (i : Nat) (nodes : List Nat)
    (doc : Doc) (stackValues : List Ty) : Except Failure (List Val) :=
  match nodes with
  | [] => .ok xs
  | nd :: rest =>
    if h : i < xs.length then
      match doParse p t (xs.get ⟨i, h⟩) stackValues ⟨doc, [nd]⟩ with
      | .error e => .error e
      | .ok v2 => doParseSliceLoop p t (xs.set i v2) (i + 1) rest doc stackValues
    else .error (.panicked "reflect: slice index out of range")
termination_by (tySize t, nodes.length + 2)
decreasing_by all_goals decreasing_with first | omega | (simp only [tySize, fieldsSize]; omega)

end

/-- Whether a pointer-shaped value is nil (`reflect.Value.IsNil`). -/
def isNilVal : Val → Bool
  | .ptr none => true
  | _ => false

/-- Embedding of `ParseSelection`: validate the target shape — pointer,
non-nil, pointee a struct — and only then hand the pointer to `doParse`
with an empty ancestor chain. -/
def ParseSelection (p : Pagser) (t : Ty) (v : Val) (selection : Selection) :
    Except Failure Val :=
  if kindOfTy t ≠ Kind.Pointer then .error (.goErr .nonPointer)
  else if isNilVal v then .error (.goErr .isNil)
  else
    match t with
    | .ptr inner =>
      if kindOfTy inner ≠ Kind.Struct then .error (.goErr .notAStruct)
      else doParse p t v [] selection
    | _ => .error (.goErr .nonPointer)

/-! ### Helper lemmas about the binder

One-step characterizations of `doParseStruct` in terms of the per-field
directive, and the selector-resolution abbreviation `tagNode`. These are
shared by several claim proofs. -/

/-- The node a field operates on: the incoming selection, or its `Find`
refinement when the tag names a selector. -/
def tagNode (tag : TagTokenizer) (sel : Selection) : Selection :=
  if tag.Selector = "" then sel else sel.find tag.Selector

theorem processFieldStep_eq_func (p : Pagser) (selfTy : Ty) (stackValues : List Ty)
    (sel : Selection) (f : FieldD) (tagValue : String) (tag : TagTokenizer)
    (h1 : f.tag = some tagValue) (h2 : tagValue ≠ ignoreSymbol)
    (h3 : getTag p tagValue = .ok tag) (h4 : tag.FuncName ≠ "") :
    processFieldStep p selfTy stackValues sel f =
      match findAndExecFunc p selfTy stackValues tag (tagNode tag sel) with
      | .error callErr => .fail (.parseFuncError tagValue callErr)
      | .ok (.selection subNode) => .recurse tagValue subNode
      | .ok (.value callOutValue) =>
        match setRefectValue p (kindOfTy f.fty) (elemKindOfTy f.fty) callOutValue with
        | .error msg => .fail (.setValueError tagValue msg)
        | .ok fvOut => .terminal (.fv fvOut) := by
  simp only [processFieldStep, h1, if_neg h2, h3, if_neg h4, tagNode]

theorem processFieldStep_eq_nofunc (p : Pagser) (selfTy : Ty) (stackValues : List Ty)
    (sel : Selection) (f : FieldD) (tagValue : String) (tag : TagTokenizer)
    (h1 : f.tag = some tagValue) (h2 : tagValue ≠ ignoreSymbol)
    (h3 : getTag p tagValue = .ok tag) (h4 : tag.FuncName = "") :
    processFieldStep p selfTy stackValues sel f = .recurse tagValue (tagNode tag sel) := by
  simp only [processFieldStep, h1, if_neg h2, h3, if_pos h4, tagNode]

theorem doParseStruct_cons_skip (p : Pagser) (selfTy : Ty) (f : FieldD) (fs : List FieldD)
    (vals : List Val) (stackValues : List Ty) (sel : Selection)
    (h : processFieldStep p selfTy stackValues sel f = .skip) :
    doParseStruct p selfTy (f :: fs) vals stackValues sel =
      match doParseStruct p selfTy fs vals.tail stackValues sel with
      | .error e => .error e
      | .ok rest => .ok (vals.headD (zeroVal f.fty) :: rest) := by
  rw [doParseStruct]
  simp only [h]

theorem doParseStruct_cons_fail (p : Pagser) (selfTy : Ty) (f : FieldD) (fs : List FieldD)
    (vals : List Val) (stackValues : List Ty) (sel : Selection) (e : Err)
    (h : processFieldStep p selfTy stackValues sel f = .fail e) :
    doParseStruct p selfTy (f :: fs) vals stackValues sel = .error (.goErr e) := by
  rw [doParseStruct]
  simp only [h]

theorem doParseStruct_cons_terminal (p : Pagser) (selfTy : Ty) (f : FieldD) (fs : List FieldD)
    (vals : List Val) (stackValues : List Ty) (sel : Selection) (newV : Val)
    (h : processFieldStep p selfTy stackValues sel f = .terminal newV) :
    doParseStruct p selfTy (f :: fs) vals stackValues sel =
      match doParseStruct p selfTy fs vals.tail stackValues sel with
      | .error e => .error e
      | .ok rest => .ok (newV :: rest) := by
  rw [doParseStruct]
  simp only [h]

theorem doParseStruct_cons_recurse (p : Pagser) (selfTy : Ty) (f : FieldD) (fs : List FieldD)
    (vals : List Val) (stackValues : List Ty) (sel : Selection) (tagValue : String)
    (node : Selection)
    (h : processFieldStep p selfTy stackValues sel f = .recurse tagValue node) :
    doParseStruct p selfTy (f :: fs) vals stackValues sel =
      match doParse p f.fty (vals.headD (zeroVal f.fty)) (stackValues ++ [selfTy]) node with
      | .error e => .error (wrapParser tagValue e)
      | .ok fv2 =>
        match doParseStruct p selfTy fs vals.tail (stackValues ++ [selfTy]) sel with
        | .error e => .error e
        | .ok rest => .ok (fv2 :: rest) := by
  rw [doParseStruct]
  simp only [h]

/-! ### Ancestor-chain search lemmas -/

theorem findMethodInStack_append_last (outer : List Ty) (tNear : Ty) (funcName : String)
    (m : MethodFn) (h : findMethod tNear funcName = some m) :
    findMethodInStack (outer ++ [tNear]) funcName = some m := by
  induction outer with
  | nil => simp [findMethodInStack, h]
  | cons t ts ih => simp [findMethodInStack, ih]

theorem findMethodInStack_none (stackValues : List Ty) (funcName : String)
    (h : ∀ t ∈ stackValues, findMethod t funcName = none) :
    findMethodInStack stackValues funcName = none := by
  induction stackValues with
  | nil => simp [findMethodInStack]
  | cons t ts ih =>
    have ht : findMethod t funcName = none := h t (by simp)
    have hts : findMethodInStack ts funcName = none := ih (fun u hu => h u (by simp [hu]))
    simp [findMethodInStack, hts, ht]

/-- C1: when a field's tag names a function, `findAndExecFunc` resolves it
with first-match-wins priority: (i) a method on the struct value currently
being populated is executed, shadowing everything else; (ii) failing that,
the method found on the nearest (innermost, last-pushed) enclosing ancestor
wins, whatever the outer ancestors or the registry hold; (iii) failing all
methods, a registry entry of that name is invoked with the tag arguments;
(iv) when nothing matches, the result is the function-not-found error, and
(v) that — like any `findAndExecFunc` error — makes `doParseStruct` abort
the bind at that field with the wrapped `parse func error`. -/
theorem claim1_function_resolution_priority (p : Pagser) (selfTy : Ty) (stackValues : List Ty)
    (selTag : TagTokenizer) (node : Selection) (hname : selTag.FuncName ≠ "") :
    (∀ m, findMethod selfTy selTag.FuncName = some m →
      findAndExecFunc p selfTy stackValues selTag node = execMethod m selTag node)
    ∧ (∀ outer tNear m, findMethod selfTy selTag.FuncName = none →
        findMethod tNear selTag.FuncName = some m →
        findAndExecFunc p selfTy (outer ++ [tNear]) selTag node = execMethod m selTag node)
    ∧ (∀ cfn, findMethod selfTy selTag.FuncName = none →
        (∀ t ∈ stackValues, findMethod t selTag.FuncName = none) →
        lookupA p.mapFuncs selTag.FuncName = some cfn →
        findAndExecFunc p selfTy stackValues selTag node =
          match cfn node selTag.FuncParams with
          | .error e => .error (.registeredFuncError selTag.FuncName e)
          | .ok outValue => .ok outValue)
    ∧ (findMethod selfTy selTag.FuncName = none →
        (∀ t ∈ stackValues, findMethod t selTag.FuncName = none) →
        lookupA p.mapFuncs selTag.FuncName = none →
        findAndExecFunc p selfTy stackValues selTag node = .error (.methodNotFound selTag.FuncName))
    ∧ (∀ f fs vals sel tagValue er, f.tag = some tagValue → tagValue ≠ ignoreSymbol →
        getTag p tagValue = .ok selTag →
        findAndExecFunc p selfTy stackValues selTag (tagNode selTag sel) = .error er →
        doParseStruct p selfTy (f :: fs) vals stackValues sel =
          .error (.goErr (.parseFuncError tagValue er))) := by
  refine ⟨?_, ?_, ?_, ?_, ?_⟩
  · intro m hm
    simp [findAndExecFunc, if_neg hname, hm]
  · intro outer tNear m hself hnear
    simp [findAndExecFunc, if_neg hname, hself,
      findMethodInStack_append_last outer tNear selTag.FuncName m hnear]
  · intro cfn hself hstack hreg
    simp [findAndExecFunc, if_neg hname, hself,
      findMethodInStack_none stackValues selTag.FuncName hstack, hreg]
  · intro hself hstack hreg
    simp [findAndExecFunc, if_neg hname, hself,
      findMethodInStack_none stackValues selTag.FuncName hstack, hreg]
  · intro f fs vals sel tagValue er h1 h2 h3 hcall
    have hstep := processFieldStep_eq_func p selfTy stackValues sel f tagValue selTag h1 h2 h3 hname
    rw [hcall] at hstep
    exact doParseStruct_cons_fail p selfTy f fs vals stackValues sel _ hstep

/-! Concrete fixtures used by the witnesses. -/

def cfgW : Config := ⟨"pagser", "->", false, false⟩

def cfgStrict : Config := ⟨"pagser", "->", true, false⟩

def docW : Doc :=
  ⟨fun n s => if s = "li" then [10 * n + 1, 10 * n + 2] else [],
   fun n => "t" ++ natToStr n⟩

def selW : Selection := ⟨docW, [1]⟩

def mOwn : MethodFn := fun node => (.value (.vString ("own:" ++ node.text)), none)

def mAnc : MethodFn := fun node => (.value (.vString ("anc:" ++ node.text)), none)

def mOuter : MethodFn := fun node => (.value (.vString ("outer:" ++ node.text)), none)

def mSel : MethodFn := fun node => (.selection (node.find "li"), none)

def regF : RegFn := fun node _ => .ok (.value (.vString ("reg:" ++ node.text)))

def tyOwn : Ty := .struct [] [("F", mOwn), ("G", mSel)]

def tyAnc : Ty := .struct [] [("F", mAnc)]

def tyOuter : Ty := .struct [] [("F", mOuter)]

def tyPlain : Ty := .struct [] []

def pW : Pagser := ⟨cfgW, [], [("F", regF)]⟩

def pEmpty : Pagser := ⟨cfgW, [], []⟩

def tagF : TagTokenizer := ⟨"", "F", []⟩

/-- Witness for C1 at concrete inputs: the own-struct method shadows both an
ancestor method and a registry entry of the same name; with no own method the
innermost ancestor wins over an outer one and the registry; with no methods at
all the registry entry runs; with nothing the bind gets `method not found`. -/
theorem claim1_witness :
    tagF.FuncName ≠ ""
    ∧ findMethod tyOwn "F" = some mOwn
    ∧ findAndExecFunc pW tyOwn [tyAnc] tagF selW = execMethod mOwn tagF selW
    ∧ findMethod tyPlain "F" = none
    ∧ findAndExecFunc pW tyPlain ([tyOuter] ++ [tyAnc]) tagF selW = execMethod mAnc tagF selW
    ∧ findAndExecFunc pW tyPlain [] tagF selW =
        (match regF selW tagF.FuncParams with
         | .error e => .error (.registeredFuncError tagF.FuncName e)
         | .ok outValue => .ok outValue)
    ∧ findAndExecFunc pEmpty tyPlain [] tagF selW = .error (.methodNotFound "F") := by
  have h1 := claim1_function_resolution_priority pW tyOwn [tyAnc] tagF selW (by decide)
  have h2 := claim1_function_resolution_priority pW tyPlain ([tyOuter] ++ [tyAnc]) tagF selW (by decide)
  have h3 := claim1_function_resolution_priority pW tyPlain [] tagF selW (by decide)
  have h4 := claim1_function_resolution_priority pEmpty tyPlain [] tagF selW (by decide)
  refine ⟨by decide, rfl, h1.1 mOwn rfl, rfl, ?_, ?_, ?_⟩
  · exact h2.2.1 [tyOuter] tyAnc mAnc rfl rfl
  · exact h3.2.2.1 regF rfl (by intro t ht; cases ht) rfl
  · exact h4.2.2.2.1 rfl (by intro t ht; cases ht) rfl

/-- C2: for a field whose tag names a function, the function's result
decides the field's fate. If it returns a node selection, that selection
replaces the current node and the binder recurses into the field's shape
(`doParse` on the field's type) with it, pushing the current struct onto
the ancestor chain. If it returns any other (terminal) value, the value is
cast into the field by `setRefectValue`, the field's slot receives exactly
that cast store, and binding of this field ends with no recursion — the
remaining fields continue with the unchanged ancestor chain. -/
theorem claim2_function_result_dispatch (p : Pagser) (selfTy : Ty) (stackValues : List Ty)
    (sel : Selection) (f : FieldD) (fs : List FieldD) (vals : List Val)
    (tagValue : String) (tag : TagTokenizer)
    (h1 : f.tag = some tagValue) (h2 : tagValue ≠ ignoreSymbol)
    (h3 : getTag p tagValue = .ok tag) (h4 : tag.FuncName ≠ "") :
    (∀ subNode, findAndExecFunc p selfTy stackValues tag (tagNode tag sel) = .ok (.selection subNode) →
      doParseStruct p selfTy (f :: fs) vals stackValues sel =
        match doParse p f.fty (vals.headD (zeroVal f.fty)) (stackValues ++ [selfTy]) subNode with
        | .error e => .error (wrapParser tagValue e)
        | .ok fv2 =>
          match doParseStruct p selfTy fs vals.tail (stackValues ++ [selfTy]) sel with
          | .error e => .error e
          | .ok rest => .ok (fv2 :: rest))
    ∧ (∀ callOutValue fvOut,
        findAndExecFunc p selfTy stackValues tag (tagNode tag sel) = .ok (.value callOutValue) →
        setRefectValue p (kindOfTy f.fty) (elemKindOfTy f.fty) callOutValue = .ok fvOut →
        doParseStruct p selfTy (f :: fs) vals stackValues sel =
          match doParseStruct p selfTy fs vals.tail stackValues sel with
          | .error e => .error e
          | .ok rest => .ok (.fv fvOut :: rest)) := by
  constructor
  · intro subNode hcall
    have hstep := processFieldStep_eq_func p selfTy stackValues sel f tagValue tag h1 h2 h3 h4
    rw [hcall] at hstep
    exact doParseStruct_cons_recurse p selfTy f fs vals stackValues sel tagValue subNode hstep
  · intro callOutValue fvOut hcall hset
    have hstep := processFieldStep_eq_func p selfTy stackValues sel f tagValue tag h1 h2 h3 h4
    rw [hcall] at hstep
    simp only [hset] at hstep
    exact doParseStruct_cons_terminal p selfTy f fs vals stackValues sel _ hstep

/-! Fixtures for the C2 witness: a struct with one string field whose tag
invokes the selection-returning method `G`, and one whose tag invokes the
value-returning method `F`. -/

def fldSel : FieldD := ⟨"A", some "->G()", .prim .String⟩

def fldVal : FieldD := ⟨"B", some "->F()", .prim .String⟩

def tagG : TagTokenizer := ⟨"", "G", []⟩

/-- Witness for C2: under `tyOwn`, field `A` (tag invoking the
selection-returning `G`) recurses into its string shape with the returned
sub-selection, and field `B` (tag invoking the value-returning `F`) gets the
cast store with no recursion. -/
theorem claim2_witness :
    fldSel.tag = some "->G()"
    ∧ getTag pW "->G()" = .ok tagG
    ∧ tagG.FuncName ≠ ""
    ∧ findAndExecFunc pW tyOwn [] tagG (tagNode tagG selW) = .ok (.selection (selW.find "li"))
    ∧ doParseStruct pW tyOwn [fldSel] [.fv (.fStr "")] [] selW =
        (match doParse pW (.prim .String) (.fv (.fStr "")) ([] ++ [tyOwn]) (selW.find "li") with
         | .error e => .error (wrapParser "->G()" e)
         | .ok fv2 =>
           match doParseStruct pW tyOwn [] [] ([] ++ [tyOwn]) selW with
           | .error e => .error e
           | .ok rest => .ok (fv2 :: rest))
    ∧ findAndExecFunc pW tyOwn [] tagF (tagNode tagF selW) = .ok (.value (.vString ("own:" ++ selW.text)))
    ∧ setRefectValue pW .String .Invalid (.vString ("own:" ++ selW.text)) = .ok (.fStr ("own:" ++ selW.text))
    ∧ doParseStruct pW tyOwn [fldVal] [.fv (.fStr "")] [] selW =
        (match doParseStruct pW tyOwn [] [] [] selW with
         | .error e => .error e
         | .ok rest => .ok (.fv (.fStr ("own:" ++ selW.text)) :: rest)) := by
  have h := claim2_function_result_dispatch pW tyOwn [] selW fldSel [] [.fv (.fStr "")]
    "->G()" tagG rfl (by decide) rfl (by decide)
  have h2 := claim2_function_result_dispatch pW tyOwn [] selW fldVal [] [.fv (.fStr "")]
    "->F()" tagF rfl (by decide) rfl (by decide)
  refine ⟨rfl, rfl, by decide, rfl, ?_, rfl, rfl, ?_⟩
  · exact h.1 (selW.find "li") rfl
  · exact h2.2 (.vString ("own:" ++ selW.text)) (.fStr ("own:" ++ selW.text)) rfl rfl

/-- C7: a field with no tag under the configured tag name, or whose tag
equals the ignore marker `-`, is skipped without error: its directive is
`skip`, its slot keeps the incoming value unchanged, and binding continues
with the remaining fields (same ancestor chain, same selection). -/
theorem claim7_missing_or_ignore_tag_skips (p : Pagser) (selfTy : Ty) (stackValues : List Ty)
    (sel : Selection) (f : FieldD) (fs : List FieldD) (vals : List Val)
    (h : f.tag = none ∨ f.tag = some ignoreSymbol) :
    processFieldStep p selfTy stackValues sel f = .skip
    ∧ doParseStruct p selfTy (f :: fs) vals stackValues sel =
        match doParseStruct p selfTy fs vals.tail stackValues sel with
        | .error e => .error e
        | .ok rest => .ok (vals.headD (zeroVal f.fty) :: rest) := by
  have hstep : processFieldStep p selfTy stackValues sel f = .skip := by
    rcases h with h | h
    · simp [processFieldStep, h]
    · simp [processFieldStep, h]
  exact ⟨hstep, doParseStruct_cons_skip p selfTy f fs vals stackValues sel hstep⟩

def fldNoTag : FieldD := ⟨"C", none, .prim .Int⟩

def fldIgnore : FieldD := ⟨"D", some "-", .prim .Int⟩

/-- Witness for C7: an untagged field and a `-`-tagged field are both left
holding their incoming value (here `7`) while binding continues. -/
theorem claim7_witness :
    (fldNoTag.tag = none ∨ fldNoTag.tag = some ignoreSymbol)
    ∧ (fldIgnore.tag = none ∨ fldIgnore.tag = some ignoreSymbol)
    ∧ doParseStruct pW tyPlain [fldNoTag] [.fv (.fInt .Int 7)] [] selW =
        (match doParseStruct pW tyPlain [] [] [] selW with
         | .error e => .error e
         | .ok rest => .ok (.fv (.fInt .Int 7) :: rest))
    ∧ doParseStruct pW tyPlain [fldIgnore] [.fv (.fInt .Int 7)] [] selW =
        (match doParseStruct pW tyPlain [] [] [] selW with
         | .error e => .error e
         | .ok rest => .ok (.fv (.fInt .Int 7) :: rest)) := by
  refine ⟨Or.inl rfl, Or.inr rfl, ?_, ?_⟩
  · exact (claim7_missing_or_ignore_tag_skips pW tyPlain [] selW fldNoTag []
      [.fv (.fInt .Int 7)] (Or.inl rfl)).2
  · exact (claim7_missing_or_ignore_tag_skips pW tyPlain [] selW fldIgnore []
      [.fv (.fInt .Int 7)] (Or.inr rfl)).2

/-- C5: the bind entry point validates the target before anything else: a
non-pointer target, a nil pointer, or a pointer to a non-struct each fail
with the corresponding invalid-target error, and the result is the same
for every selection — no selector is resolved and no field is written,
because the traversal is never entered. -/
theorem claim5_invalid_target_rejected (p : Pagser) (t : Ty) (v : Val) :
    (kindOfTy t ≠ Kind.Pointer →
      ∀ selection, ParseSelection p t v selection = .error (.goErr .nonPointer))
    ∧ (∀ inner, t = .ptr inner → v = .ptr none →
        ∀ selection, ParseSelection p t v selection = .error (.goErr .isNil))
    ∧ (∀ inner, t = .ptr inner → isNilVal v = false → kindOfTy inner ≠ Kind.Struct →
        ∀ selection, ParseSelection p t v selection = .error (.goErr .notAStruct)) := by
  refine ⟨?_, ?_, ?_⟩
  · intro hk selection
    simp [ParseSelection, hk]
  · intro inner ht hv selection
    subst ht; subst hv
    simp [ParseSelection, kindOfTy, isNilVal]
  · intro inner ht hv hs selection
    subst ht
    simp only [kindOfTy] at hs
    simp [ParseSelection, kindOfTy, hv, hs]

/-- Witness for C5 on concrete targets: a plain string value, a nil pointer
to a struct, and a non-nil pointer to a string all fail with the matching
error regardless of the document. -/
theorem claim5_witness :
    kindOfTy (.prim .String) ≠ Kind.Pointer
    ∧ ParseSelection pW (.prim .String) (.fv (.fStr "")) selW = .error (.goErr .nonPointer)
    ∧ ParseSelection pW (.ptr tyPlain) (.ptr none) selW = .error (.goErr .isNil)
    ∧ isNilVal (Val.ptr (some (.fv (.fStr "")))) = false
    ∧ kindOfTy (.prim .String) ≠ Kind.Struct
    ∧ ParseSelection pW (.ptr (.prim .String)) (.ptr (some (.fv (.fStr "")))) selW =
        .error (.goErr .notAStruct) := by
  refine ⟨by decide, ?_, ?_, rfl, by decide, ?_⟩
  · exact (claim5_invalid_target_rejected pW (.prim .String) (.fv (.fStr ""))).1 (by decide) selW
  · exact (claim5_invalid_target_rejected pW (.ptr tyPlain) (.ptr none)).2.1 tyPlain rfl rfl selW
  · exact (claim5_invalid_target_rejected pW (.ptr (.prim .String))
      (.ptr (some (.fv (.fStr ""))))).2.2 (.prim .String) rfl rfl (by decide) selW

/-- C8 (amended): a scalar field reached with no function having redirected
the value goes through the source's default branch, which calls
`SetString` with the trimmed selection text. For a string-kinded field this
assigns the trimmed text; for every other scalar kind the `SetString` call
panics instead of assigning — the claim's unrestricted "every scalar field
is assigned the text" holds only for the string kind. -/
theorem claim8_scalar_text_assignment (p : Pagser) (k : Kind) (v : Val) (stackValues : List Ty)
    (sel : Selection) :
    (k = Kind.String →
      doParse p (.prim k) v stackValues sel = .ok (.fv (.fStr (goTrim sel.text))))
    ∧ (k ≠ Kind.String →
      doParse p (.prim k) v stackValues sel =
        .error (.panicked "reflect: call of reflect.Value.SetString on non-string Value")) := by
  constructor
  · intro hk
    rw [doParse]
    simp [hk]
  · intro hk
    rw [doParse]
    simp [hk]

/-- Counterexample for C8 as stated: an int-kinded scalar field reached
with no function is not assigned the node's trimmed text — the bind panics
(`SetString` on a non-string value) and produces no assignment at all. -/
theorem claim8_counterexample :
    doParse pW (.prim .Int) (.fv (.fInt .Int 0)) [] selW =
      .error (.panicked "reflect: call of reflect.Value.SetString on non-string Value")
    ∧ doParse pW (.prim .Int) (.fv (.fInt .Int 0)) [] selW ≠ .ok (.fv (.fStr (goTrim selW.text))) := by
  constructor
  · rw [doParse]
    simp
  · rw [doParse]
    simp

/-- Witness for C8 (amended), at a concrete document: the string field gets
the trimmed text `t1`, the int field panics. -/
theorem claim8_witness :
    goTrim selW.text = "t1"
    ∧ doParse pW (.prim .String) (.fv (.fStr "")) [] selW = .ok (.fv (.fStr (goTrim selW.text)))
    ∧ doParse pW (.prim .Bool) (.fv (.fBool false)) [] selW =
        .error (.panicked "reflect: call of reflect.Value.SetString on non-string Value") := by
  refine ⟨rfl, ?_, ?_⟩
  · exact (claim8_scalar_text_assignment pW .String (.fv (.fStr "")) [] selW).1 rfl
  · exact (claim8_scalar_text_assignment pW .Bool (.fv (.fBool false)) [] selW).2 (by decide)

/-! ### Error-wrapping lemmas (C6) -/

theorem newTag_error (cfg : Config) (tagValue : String) (e : Err)
    (h : newTag cfg tagValue = .error e) : e = .malformedTag tagValue := by
  unfold newTag at h
  repeat (any_goals split at h)
  all_goals simp_all

theorem getTag_error (p : Pagser) (tagValue : String) (e : Err)
    (h : getTag p tagValue = .error e) : e = .malformedTag tagValue := by
  unfold getTag at h
  split at h
  · simp_all
  · exact newTag_error p.Config tagValue e h

theorem processFieldStep_fail_tagOf (p : Pagser) (selfTy : Ty) (stackValues : List Ty)
    (sel : Selection) (f : FieldD) (tagValue : String) (e : Err)
    (h1 : f.tag = some tagValue)
    (h : processFieldStep p selfTy stackValues sel f = .fail e) :
    Err.tagOf e = some tagValue := by
  simp only [processFieldStep, h1] at h
  by_cases hig : tagValue = ignoreSymbol
  · simp [hig] at h
  · rw [if_neg hig] at h
    cases hget : getTag p tagValue with
    | error e2 =>
      simp only [hget] at h
      rw [getTag_error p tagValue e2 hget] at h
      simp only [FieldDirective.fail.injEq] at h
      rw [← h]
      rfl
    | ok tag =>
      simp only [hget] at h
      by_cases hfn : tag.FuncName = ""
      · simp [hfn] at h
      · rw [if_neg hfn] at h
        cases hcall : findAndExecFunc p selfTy stackValues tag
            (if tag.Selector = "" then sel else sel.find tag.Selector) with
        | error callErr =>
          simp only [hcall, FieldDirective.fail.injEq] at h
          rw [← h]
          rfl
        | ok out =>
          simp only [hcall] at h
          cases out with
          | selection subNode => simp at h
          | value callOutValue =>
            cases hset : setRefectValue p (kindOfTy f.fty) (elemKindOfTy f.fty) callOutValue with
            | error msg =>
              simp only [hset, FieldDirective.fail.injEq] at h
              rw [← h]
              rfl
            | ok fvOut => simp [hset] at h

/-- C6: a fatal error while binding a field aborts the whole struct loop
immediately — the fields after it are never consulted and the loop's result
is exactly that error — and the returned error is wrapped with the
offending raw tag text: a failing directive (malformed tag expression,
function resolution or execution failure, strict-cast failure) produces an
error whose outermost wrap carries the field's tag, and an error coming
back from recursing into the field is wrapped as `parser error` with that
same tag (a panic, which Go does not wrap, propagates unchanged). -/
theorem claim6_fatal_errors_abort_wrapped (p : Pagser) (selfTy : Ty) (stackValues : List Ty)
    (sel : Selection) (f : FieldD) (fs : List FieldD) (vals : List Val) (tagValue : String)
    (h1 : f.tag = some tagValue) :
    (∀ e, processFieldStep p selfTy stackValues sel f = .fail e →
      doParseStruct p selfTy (f :: fs) vals stackValues sel = .error (.goErr e)
      ∧ Err.tagOf e = some tagValue)
    ∧ (∀ node fail2, processFieldStep p selfTy stackValues sel f = .recurse tagValue node →
        doParse p f.fty (vals.headD (zeroVal f.fty)) (stackValues ++ [selfTy]) node = .error fail2 →
        doParseStruct p selfTy (f :: fs) vals stackValues sel = .error (wrapParser tagValue fail2)
        ∧ ∀ e2, fail2 = .goErr e2 →
            wrapParser tagValue fail2 = .goErr (.parserError tagValue e2)
            ∧ Err.tagOf (.parserError tagValue e2) = some tagValue) := by
  constructor
  · intro e hstep
    exact ⟨doParseStruct_cons_fail p selfTy f fs vals stackValues sel e hstep,
      processFieldStep_fail_tagOf p selfTy stackValues sel f tagValue e h1 hstep⟩
  · intro node fail2 hstep hrec
    constructor
    · rw [doParseStruct_cons_recurse p selfTy f fs vals stackValues sel tagValue node hstep, hrec]
    · intro e2 he2
      subst he2
      exact ⟨rfl, rfl⟩

/-! Fixtures for the C6 witness: a field whose tag fails to tokenize, and an
int-kinded field whose recursion panics. -/

def fldBad : FieldD := ⟨"X", some "x->(", .prim .String⟩

def fldIntTag : FieldD := ⟨"Y", some "y", .prim .Int⟩

/-- Witness for C6: the malformed tag `x->(` aborts the loop with the
malformed-expression error carrying the tag text (whatever fields follow),
and a recursion failure surfaces through the `parser error` wrap path. -/
theorem claim6_witness :
    fldBad.tag = some "x->("
    ∧ processFieldStep pEmpty tyPlain [] selW fldBad = .fail (.malformedTag "x->(")
    ∧ doParseStruct pEmpty tyPlain [fldBad, fldNoTag] [.fv (.fStr ""), .fv (.fInt .Int 7)] [] selW =
        .error (.goErr (.malformedTag "x->("))
    ∧ Err.tagOf (.malformedTag "x->(") = some "x->("
    ∧ processFieldStep pEmpty tyPlain [] selW fldIntTag = .recurse "y" (selW.find "y")
    ∧ doParse pEmpty (.prim .Int) (.fv (.fInt .Int 0)) ([] ++ [tyPlain]) (selW.find "y") =
        .error (.panicked "reflect: call of reflect.Value.SetString on non-string Value")
    ∧ doParseStruct pEmpty tyPlain [fldIntTag] [.fv (.fInt .Int 0)] [] selW =
        .error (wrapParser "y"
          (.panicked "reflect: call of reflect.Value.SetString on non-string Value")) := by
  have hbadstep : processFieldStep pEmpty tyPlain [] selW fldBad = .fail (.malformedTag "x->(") := by
    rfl
  have hintstep : processFieldStep pEmpty tyPlain [] selW fldIntTag = .recurse "y" (selW.find "y") := by
    rfl
  have hpanic : doParse pEmpty (.prim .Int) (.fv (.fInt .Int 0)) ([] ++ [tyPlain]) (selW.find "y") =
      .error (.panicked "reflect: call of reflect.Value.SetString on non-string Value") := by
    rw [doParse]; simp
  have h6a := claim6_fatal_errors_abort_wrapped pEmpty tyPlain [] selW fldBad [fldNoTag]
    [.fv (.fStr ""), .fv (.fInt .Int 7)] "x->(" rfl
  have h6b := claim6_fatal_errors_abort_wrapped pEmpty tyPlain [] selW fldIntTag []
    [.fv (.fInt .Int 0)] "y" rfl
  refine ⟨rfl, hbadstep, ?_, rfl, hintstep, hpanic, ?_⟩
  · exact (h6a.1 (.malformedTag "x->(") hbadstep).1
  · exact (h6b.2 (selW.find "y")
      (.panicked "reflect: call of reflect.Value.SetString on non-string Value")
      hintstep hpanic).1

/-! ### Zero-on-error facts about the cast model (C3)

Every `To<T>E` function of the cast library returns the target's zero value
(or the empty slice) alongside an error; these lemmas record that for the
model. -/

theorem goParseBool_zero (s : String) (e : String) (h : (goParseBool s).2 = some e) :
    (goParseBool s).1 = false := by
  unfold goParseBool at *
  split_ifs at h ⊢ <;> simp_all

theorem goParseInt_zero (s : String) (e : String) (h : (goParseInt s).2 = some e) :
    (goParseInt s).1 = 0 := by
  unfold goParseInt at *
  repeat (any_goals split at h)
  all_goals simp_all

theorem goParseUint_zero (s : String) (e : String) (h : (goParseUint s).2 = some e) :
    (goParseUint s).1 = 0 := by
  unfold goParseUint at *
  repeat (any_goals split at h)
  all_goals simp_all

theorem goParseRat_zero (s : String) (e : String) (h : (goParseRat s).2 = some e) :
    (goParseRat s).1 = 0 := by
  unfold goParseRat at *
  repeat (any_goals split at h)
  all_goals simp_all

theorem toBoolE_zero (v : GoVal) (e : String) (h : (toBoolE v).2 = some e) :
    (toBoolE v).1 = false := by
  cases v <;> simp_all [toBoolE]
  exact goParseBool_zero _ _ h

theorem toInt64E_zero (v : GoVal) (e : String) (h : (toInt64E v).2 = some e) :
    (toInt64E v).1 = 0 := by
  cases v <;> simp_all [toInt64E]
  exact goParseInt_zero _ _ h

theorem toUint64E_zero (v : GoVal) (e : String) (h : (toUint64E v).2 = some e) :
    (toUint64E v).1 = 0 := by
  cases v <;> simp_all [toUint64E]
  all_goals first
  | exact goParseUint_zero _ _ h
  | (split_ifs at h ⊢ <;> simp_all)

theorem toFloat64E_zero (v : GoVal) (e : String) (h : (toFloat64E v).2 = some e) :
    (toFloat64E v).1 = 0 := by
  cases v <;> simp_all [toFloat64E]
  exact goParseRat_zero _ _ h

theorem toStringE_zero (v : GoVal) (e : String) (h : (toStringE v).2 = some e) :
    (toStringE v).1 = "" := by
  cases v <;> simp_all [toStringE]

theorem mapCastE_zero {α : Type} (f : GoVal → α × Option String) (l : List GoVal) (e : String)
    (h : (mapCastE f l).2 = some e) : (mapCastE f l).1 = [] := by
  induction l with
  | nil => simp [mapCastE] at h
  | cons v vs ih =>
    rcases hfv : f v with ⟨x, e1⟩
    cases e1 with
    | some msg => simp [mapCastE, hfv]
    | none =>
      rcases hrest : mapCastE f vs with ⟨xs, e2⟩
      cases e2 with
      | some msg => simp [mapCastE, hfv, hrest]
      | none => simp [mapCastE, hfv, hrest] at h

theorem mapCastNilE_zero {α : Type} (f : GoVal → α × Option String) (l : List GoVal) (e : String)
    (h : (mapCastNilE f l).2 = some e) : (mapCastNilE f l).1 = none := by
  unfold mapCastNilE at *
  rcases h2 : mapCastE f l with ⟨xs, e2⟩
  cases e2 <;> simp_all

theorem toBoolSliceE_zero (v : GoVal) (e : String) (h : (toBoolSliceE v).2 = some e) :
    (toBoolSliceE v).1 = [] := by
  unfold toBoolSliceE at *
  repeat (any_goals split at h)
  all_goals first
  | exact mapCastE_zero _ _ _ h
  | simp_all

theorem toIntSliceE_zero (v : GoVal) (e : String) (h : (toIntSliceE v).2 = some e) :
    (toIntSliceE v).1 = [] := by
  unfold toIntSliceE at *
  repeat (any_goals split at h)
  all_goals first
  | exact mapCastE_zero _ _ _ h
  | simp_all

theorem toInt32SliceE_zero (v : GoVal) (e : String) (h : (toInt32SliceE v).2 = some e) :
    (toInt32SliceE v).1 = none := by
  unfold toInt32SliceE at *
  repeat (any_goals split at h)
  all_goals first
  | exact mapCastNilE_zero _ _ _ h
  | simp_all

theorem toInt64SliceE_zero (v : GoVal) (e : String) (h : (toInt64SliceE v).2 = some e) :
    (toInt64SliceE v).1 = none := by
  unfold toInt64SliceE at *
  repeat (any_goals split at h)
  all_goals first
  | exact mapCastNilE_zero _ _ _ h
  | simp_all

theorem toFloat32SliceE_zero (v : GoVal) (e : String) (h : (toFloat32SliceE v).2 = some e) :
    (toFloat32SliceE v).1 = none := by
  unfold toFloat32SliceE at *
  repeat (any_goals split at h)
  all_goals first
  | exact mapCastNilE_zero _ _ _ h
  | simp_all

theorem toFloat64SliceE_zero (v : GoVal) (e : String) (h : (toFloat64SliceE v).2 = some e) :
    (toFloat64SliceE v).1 = none := by
  unfold toFloat64SliceE at *
  repeat (any_goals split at h)
  all_goals first
  | exact mapCastNilE_zero _ _ _ h
  | simp_all

theorem toStringSliceE_zero (v : GoVal) (e : String) (h : (toStringSliceE v).2 = some e) :
    (toStringSliceE v).1 = none := by
  unfold toStringSliceE at *
  cases v <;> simp_all

theorem signedWrap_zero (w : Nat) (hw : 1 ≤ w) : signedWrap w 0 = 0 := by
  unfold signedWrap
  have h1 : (0:Int) ≤ 2 ^ (w - 1) := by positivity
  have h2 : (2:Int) ^ (w - 1) < ((2 ^ w : Nat) : Int) := by
    push_cast
    exact pow_lt_pow_right₀ one_lt_two (by omega)
  rw [zero_add, Int.emod_eq_of_lt h1 h2]
  ring

theorem signedWrap_width_zero (k : Kind) : signedWrap (intWidth k) 0 = 0 := by
  cases k <;> exact signedWrap_zero _ (by norm_num [intWidth])

theorem unsignedWrap_zero (w : Nat) : unsignedWrap w 0 = 0 := Nat.zero_mod _

/-! ### The cast error observed for a field kind (C3)

`castErrOf` reads off the error component of the conversion the source
attempts for a given field kind — the same dispatch `setRefectValue` (and
`setFieldValue`) performs. -/

def castErrOf (kind elemKind : Kind) (v : GoVal) : Option String :=
  if kind = Kind.Bool then (toBoolE v).2
  else if Kind.Int.code ≤ kind.code ∧ kind.code ≤ Kind.Int64.code then (toInt64E v).2
  else if Kind.Uint.code ≤ kind.code ∧ kind.code ≤ Kind.Uintptr.code then (toUint64E v).2
  else if kind = Kind.Float32 ∨ kind = Kind.Float64 then (toFloat64E v).2
  else if kind = Kind.String then (toStringE v).2
  else if kind = Kind.Slice ∨ kind = Kind.Array then
    match elemKind with
    | .Bool => (toBoolSliceE v).2
    | .Int => (toIntSliceE v).2
    | .Int32 => (toInt32SliceE v).2
    | .Int64 => (toInt64SliceE v).2
    | .Float32 => (toFloat32SliceE v).2
    | .Float64 => (toFloat64SliceE v).2
    | .String => (toStringSliceE v).2
    | _ => none
  else none

/-- The scalar kinds `setRefectValue` converts (everything short of
slice/array and the raw passthrough). -/
def handledScalar (k : Kind) : Bool :=
  k = Kind.Bool
  || (Kind.Int.code ≤ k.code && k.code ≤ Kind.Int64.code)
  || (Kind.Uint.code ≤ k.code && k.code ≤ Kind.Uintptr.code)
  || k = Kind.Float32 || k = Kind.Float64 || k = Kind.String

/-- The slice element kinds with a dedicated conversion in the source. -/
def handledElem (k : Kind) : Bool :=
  k = Kind.Bool || k = Kind.Int || k = Kind.Int32 || k = Kind.Int64
  || k = Kind.Float32 || k = Kind.Float64 || k = Kind.String

def handledKind (k ek : Kind) : Bool :=
  handledScalar k || (k = Kind.Slice && handledElem ek)

/-- The value a failed lenient slice cast stores. The cast library's bool
and int slice casters return a zero-length non-nil slice alongside every
error; its v1.5.1 string-slice caster (`var a []string`) and the repo's
spec-modelled int32/int64/float32/float64 helpers (§4.4 zero value) return
the nil slice. -/
def failedSliceFVal (ek : Kind) : FVal :=
  match ek with
  | .Bool => .fBoolSlice []
  | .Int => .fIntSlice []
  | .Int32 => .fInt32Slice none
  | .Int64 => .fInt64Slice none
  | .Float32 => .fFloat32Slice none
  | .Float64 => .fFloat64Slice none
  | .String => .fStrSlice none
  | _ => .fRaw .vNil

theorem setRefectValue_strict_err (p : Pagser) (kind ek : Kind) (v : GoVal) (e : String)
    (hc : p.Config.CastError = true) (h : castErrOf kind ek v = some e) :
    setRefectValue p kind ek v = .error e := by
  unfold castErrOf at h
  unfold setRefectValue
  split_ifs at h ⊢
  all_goals (try (cases ek))
  all_goals first
  | (simp_all; done)
  | (rcases hx : toBoolE v with ⟨a, b⟩; simp_all; done)
  | (rcases hx : toInt64E v with ⟨a, b⟩; simp_all; done)
  | (rcases hx : toUint64E v with ⟨a, b⟩; simp_all; done)
  | (rcases hx : toFloat64E v with ⟨a, b⟩; simp_all; done)
  | (rcases hx : toStringE v with ⟨a, b⟩; simp_all; done)
  | (rcases hx : toBoolSliceE v with ⟨a, b⟩; simp_all; done)
  | (rcases hx : toIntSliceE v with ⟨a, b⟩; simp_all; done)
  | (rcases hx : toInt32SliceE v with ⟨a, b⟩; simp_all; done)
  | (rcases hx : toInt64SliceE v with ⟨a, b⟩; simp_all; done)
  | (rcases hx : toFloat32SliceE v with ⟨a, b⟩; simp_all; done)
  | (rcases hx : toFloat64SliceE v with ⟨a, b⟩; simp_all; done)
  | (rcases hx : toStringSliceE v with ⟨a, b⟩; simp_all; done)

theorem setRefectValue_lenient_zero_scalar (p : Pagser) (kind ek : Kind) (v : GoVal) (e : String)
    (hc : p.Config.CastError = false) (hs : handledScalar kind = true)
    (h : castErrOf kind ek v = some e) :
    setRefectValue p kind ek v = .ok (zeroFVal kind) := by
  have hb := toBoolE_zero v e
  have hi := toInt64E_zero v e
  have hu := toUint64E_zero v e
  have hf := toFloat64E_zero v e
  have hst := toStringE_zero v e
  unfold castErrOf at h
  unfold handledScalar at hs
  unfold setRefectValue zeroFVal
  split_ifs at h ⊢ <;>
    simp_all [toBool0, toInt64, toUint64, toFloat64, toString0, signedWrap_width_zero,
      unsignedWrap_zero]

theorem setRefectValue_lenient_failed_slice (p : Pagser) (ek : Kind) (v : GoVal) (e : String)
    (hc : p.Config.CastError = false) (he : handledElem ek = true)
    (h : castErrOf Kind.Slice ek v = some e) :
    setRefectValue p Kind.Slice ek v = .ok (failedSliceFVal ek) := by
  have h1 := toBoolSliceE_zero v e
  have h2 := toIntSliceE_zero v e
  have h3 := toInt32SliceE_zero v e
  have h4 := toInt64SliceE_zero v e
  have h5 := toFloat32SliceE_zero v e
  have h6 := toFloat64SliceE_zero v e
  have h7 := toStringSliceE_zero v e
  unfold castErrOf at h
  unfold setRefectValue
  cases ek <;>
    simp_all [handledElem, Kind.code, toBoolSlice, toIntSlice, toInt32Slice, toInt64Slice,
      toFloat32Slice, toFloat64Slice, toStringSlice, failedSliceFVal]

theorem setRefectValue_lenient_ok (p : Pagser) (kind ek : Kind) (v : GoVal)
    (hc : p.Config.CastError = false) :
    ∃ w, setRefectValue p kind ek v = .ok w := by
  unfold setRefectValue
  split_ifs <;>
    first
    | exact ⟨_, rfl⟩
    | (cases ek <;> exact ⟨_, rfl⟩)
    | simp_all

/-- C3 (amended): under the strict-cast option a conversion failure aborts
the field — `setRefectValue` returns the cast error, and through the struct
loop the whole bind fails with the `set value error` wrap. With the option
disabled a conversion failure never fails the bind: a scalar field receives
the target kind's zero value, and a slice field receives whatever the
failing cast returned — the nil slice (the slice type's zero value) for a
`[]string` field and for the repo's int32/int64/float32/float64 slice
helpers, but a zero-length non-nil slice, observably not the nil zero
value, for `[]bool` and `[]int` fields. -/
theorem claim3_cast_error_policy (p : Pagser) (kind ek : Kind) (v : GoVal)
    (hk : handledKind kind ek = true) :
    (∀ e, castErrOf kind ek v = some e →
      (p.Config.CastError = true → setRefectValue p kind ek v = .error e)
      ∧ (p.Config.CastError = false → handledScalar kind = true →
          setRefectValue p kind ek v = .ok (zeroFVal kind))
      ∧ (p.Config.CastError = false → kind = Kind.Slice →
          setRefectValue p kind ek v = .ok (failedSliceFVal ek)))
    ∧ (p.Config.CastError = false → ∃ w, setRefectValue p kind ek v = .ok w)
    ∧ (isNilSliceVal (.fv (failedSliceFVal Kind.Bool)) = false
       ∧ isNilSliceVal (.fv (failedSliceFVal Kind.Int)) = false
       ∧ isNilSliceVal (.fv (failedSliceFVal Kind.String)) = true
       ∧ isNilSliceVal (.fv (failedSliceFVal Kind.Int32)) = true
       ∧ isNilSliceVal (.fv (failedSliceFVal Kind.Int64)) = true
       ∧ isNilSliceVal (.fv (failedSliceFVal Kind.Float32)) = true
       ∧ isNilSliceVal (.fv (failedSliceFVal Kind.Float64)) = true)
    ∧ (∀ selfTy stackValues sel f fs vals tagValue tag e,
        f.tag = some tagValue → tagValue ≠ ignoreSymbol →
        getTag p tagValue = .ok tag → tag.FuncName ≠ "" →
        findAndExecFunc p selfTy stackValues tag (tagNode tag sel) = .ok (.value v) →
        setRefectValue p (kindOfTy f.fty) (elemKindOfTy f.fty) v = .error e →
        doParseStruct p selfTy (f :: fs) vals stackValues sel =
          .error (.goErr (.setValueError tagValue e))) := by
  refine ⟨?_, fun hc => setRefectValue_lenient_ok p kind ek v hc,
    ⟨rfl, rfl, rfl, rfl, rfl, rfl, rfl⟩, ?_⟩
  · intro e he
    refine ⟨fun hc => setRefectValue_strict_err p kind ek v e hc he, ?_, ?_⟩
    · intro hc hs
      exact setRefectValue_lenient_zero_scalar p kind ek v e hc hs he
    · intro hc hkind
      subst hkind
      have hel : handledElem ek = true := by
        simp [handledKind, handledScalar, Kind.code] at hk
        exact hk
      exact setRefectValue_lenient_failed_slice p ek v e hc hel he
  · intro selfTy stackValues sel f fs vals tagValue tag e h1 h2 h3 h4 hcall hset
    have hstep := processFieldStep_eq_func p selfTy stackValues sel f tagValue tag h1 h2 h3 h4
    rw [hcall] at hstep
    simp only [hset] at hstep
    exact doParseStruct_cons_fail p selfTy f fs vals stackValues sel _ hstep

/-- Counterexample for C3 as stated: with strict casting disabled, a failed
conversion into a `[]bool` field stores the empty slice — a non-nil
zero-length slice — whereas the Go zero value of a slice type is the nil
slice; the field therefore does not receive "the target type's zero value". -/
theorem claim3_counterexample :
    pW.Config.CastError = false
    ∧ (castErrOf Kind.Slice Kind.Bool (.vString "zzz")).isSome = true
    ∧ setRefectValue pW Kind.Slice Kind.Bool (.vString "zzz") = .ok (.fBoolSlice [])
    ∧ isNilSliceVal (.fv (.fBoolSlice [])) = false
    ∧ zeroVal (.slice (.prim Kind.Bool)) = .slice none
    ∧ isNilSliceVal (zeroVal (.slice (.prim Kind.Bool))) = true := by
  refine ⟨rfl, rfl, rfl, rfl, ?_, ?_⟩
  · rw [zeroVal]
  · rw [zeroVal]
    rfl

def pStrict : Pagser := ⟨cfgStrict, [], []⟩

/-- Witness for C3 (amended): the unparsable string `x` aborts an int field
under strict casting with the cast error and degrades to `0` without it; a
failed cast into a `[]bool` field stores the empty non-nil slice, while a
failed cast into a `[]string` field stores the nil slice. -/
theorem claim3_witness :
    handledKind Kind.Int Kind.Invalid = true
    ∧ castErrOf Kind.Int Kind.Invalid (.vString "x") =
        some "unable to cast \"x\" of type string to int64"
    ∧ pStrict.Config.CastError = true
    ∧ setRefectValue pStrict Kind.Int Kind.Invalid (.vString "x") =
        .error "unable to cast \"x\" of type string to int64"
    ∧ pW.Config.CastError = false
    ∧ setRefectValue pW Kind.Int Kind.Invalid (.vString "x") = .ok (zeroFVal Kind.Int)
    ∧ setRefectValue pW Kind.Slice Kind.Bool (.vString "x") = .ok (.fBoolSlice [])
    ∧ isNilSliceVal (.fv (.fBoolSlice [])) = false
    ∧ castErrOf Kind.Slice Kind.String .vNil =
        some "unable to cast value of this type to []string"
    ∧ setRefectValue pW Kind.Slice Kind.String .vNil = .ok (.fStrSlice none)
    ∧ isNilSliceVal (.fv (.fStrSlice none)) = true := by
  have h1 := claim3_cast_error_policy pStrict Kind.Int Kind.Invalid (.vString "x") (by decide)
  have h2 := claim3_cast_error_policy pW Kind.Int Kind.Invalid (.vString "x") (by decide)
  have h3 := claim3_cast_error_policy pW Kind.Slice Kind.Bool (.vString "x") (by decide)
  have h4 := claim3_cast_error_policy pW Kind.Slice Kind.String .vNil (by decide)
  refine ⟨by decide, rfl, rfl, ?_, rfl, ?_, ?_, rfl, rfl, ?_, rfl⟩
  · exact (h1.1 _ rfl).1 rfl
  · exact (h2.1 _ rfl).2.1 rfl (by decide)
  · exact (h3.1 _ rfl).2.2 rfl rfl
  · exact (h4.1 _ rfl).2.2 rfl rfl

/-- C9: the two value-casting implementations present in the source —
`setRefectValue` (parse.go) and `setFieldValue` (the alternate version) —
agree on every handled scalar kind and handled slice-of-scalar kind, for
every input value and both settings of the strict-cast option: they store
the same final field value and fail with the same error under exactly the
same conditions. (Both call the same cast functions; `setRefectValue`
branches on the option before choosing the error-reporting variant, while
`setFieldValue` always runs the error-reporting variant and applies the
option afterwards — equivalent because the error-discarding variants
return exactly the value component the error-reporting ones produce.) -/
theorem claim9_caster_equivalence (p : Pagser) (kind ek : Kind) (v : GoVal)
    (hk : handledKind kind ek = true) :
    setRefectValue p kind ek v = setFieldValue p kind ek v := by
  cases kind
  case Bool =>
    rcases hx : toBoolE v with ⟨a, b⟩
    cases b <;> cases hc : p.Config.CastError <;>
      simp [setRefectValue, setFieldValue, convertToField, hx, hc, toBool0, Kind.code]
  case Int =>
    rcases hx : toInt64E v with ⟨a, b⟩
    cases b <;> cases hc : p.Config.CastError <;>
      simp [setRefectValue, setFieldValue, convertToField, hx, hc, toInt64, Kind.code]
  case Int8 =>
    rcases hx : toInt64E v with ⟨a, b⟩
    cases b <;> cases hc : p.Config.CastError <;>
      simp [setRefectValue, setFieldValue, convertToField, hx, hc, toInt64, Kind.code]
  case Int16 =>
    rcases hx : toInt64E v with ⟨a, b⟩
    cases b <;> cases hc : p.Config.CastError <;>
      simp [setRefectValue, setFieldValue, convertToField, hx, hc, toInt64, Kind.code]
  case Int32 =>
    rcases hx : toInt64E v with ⟨a, b⟩
    cases b <;> cases hc : p.Config.CastError <;>
      simp [setRefectValue, setFieldValue, convertToField, hx, hc, toInt64, Kind.code]
  case Int64 =>
    rcases hx : toInt64E v with ⟨a, b⟩
    cases b <;> cases hc : p.Config.CastError <;>
      simp [setRefectValue, setFieldValue, convertToField, hx, hc, toInt64, Kind.code]
  case Uint =>
    rcases hx : toUint64E v with ⟨a, b⟩
    cases b <;> cases hc : p.Config.CastError <;>
      simp [setRefectValue, setFieldValue, convertToField, hx, hc, toUint64, Kind.code]
  case Uint8 =>
    rcases hx : toUint64E v with ⟨a, b⟩
    cases b <;> cases hc : p.Config.CastError <;>
      simp [setRefectValue, setFieldValue, convertToField, hx, hc, toUint64, Kind.code]
  case Uint16 =>
    rcases hx : toUint64E v with ⟨a, b⟩
    cases b <;> cases hc : p.Config.CastError <;>
      simp [setRefectValue, setFieldValue, convertToField, hx, hc, toUint64, Kind.code]
  case Uint32 =>
    rcases hx : toUint64E v with ⟨a, b⟩
    cases b <;> cases hc : p.Config.CastError <;>
      simp [setRefectValue, setFieldValue, convertToField, hx, hc, toUint64, Kind.code]
  case Uint64 =>
    rcases hx : toUint64E v with ⟨a, b⟩
    cases b <;> cases hc : p.Config.CastError <;>
      simp [setRefectValue, setFieldValue, convertToField, hx, hc, toUint64, Kind.code]
  case Uintptr =>
    rcases hx : toUint64E v with ⟨a, b⟩
    cases b <;> cases hc : p.Config.CastError <;>
      simp [setRefectValue, setFieldValue, convertToField, hx, hc, toUint64, Kind.code]
  case Float32 =>
    rcases hx : toFloat64E v with ⟨a, b⟩
    cases b <;> cases hc : p.Config.CastError <;>
      simp [setRefectValue, setFieldValue, convertToField, hx, hc, toFloat64, Kind.code]
  case Float64 =>
    rcases hx : toFloat64E v with ⟨a, b⟩
    cases b <;> cases hc : p.Config.CastError <;>
      simp [setRefectValue, setFieldValue, convertToField, hx, hc, toFloat64, Kind.code]
  case String =>
    rcases hx : toStringE v with ⟨a, b⟩
    cases b <;> cases hc : p.Config.CastError <;>
      simp [setRefectValue, setFieldValue, convertToField, hx, hc, toString0, Kind.code]
  case Slice =>
    have helem : handledElem ek = true := by
      simp [handledKind, handledScalar, Kind.code] at hk
      exact hk
    cases ek
    case Bool =>
      rcases hx : toBoolSliceE v with ⟨a, b⟩
      cases b <;> cases hc : p.Config.CastError <;>
        simp [setRefectValue, setFieldValue, convertToField, hx, hc, toBoolSlice, Kind.code]
    case Int =>
      rcases hx : toIntSliceE v with ⟨a, b⟩
      cases b <;> cases hc : p.Config.CastError <;>
        simp [setRefectValue, setFieldValue, convertToField, hx, hc, toIntSlice, Kind.code]
    case Int32 =>
      rcases hx : toInt32SliceE v with ⟨a, b⟩
      cases b <;> cases hc : p.Config.CastError <;>
        simp [setRefectValue, setFieldValue, convertToField, hx, hc, toInt32Slice, Kind.code]
    case Int64 =>
      rcases hx : toInt64SliceE v with ⟨a, b⟩
      cases b <;> cases hc : p.Config.CastError <;>
        simp [setRefectValue, setFieldValue, convertToField, hx, hc, toInt64Slice, Kind.code]
    case Float32 =>
      rcases hx : toFloat32SliceE v with ⟨a, b⟩
      cases b <;> cases hc : p.Config.CastError <;>
        simp [setRefectValue, setFieldValue, convertToField, hx, hc, toFloat32Slice, Kind.code]
    case Float64 =>
      rcases hx : toFloat64SliceE v with ⟨a, b⟩
      cases b <;> cases hc : p.Config.CastError <;>
        simp [setRefectValue, setFieldValue, convertToField, hx, hc, toFloat64Slice, Kind.code]
    case String =>
      rcases hx : toStringSliceE v with ⟨a, b⟩
      cases b <;> cases hc : p.Config.CastError <;>
        simp [setRefectValue, setFieldValue, convertToField, hx, hc, toStringSlice, Kind.code]
    all_goals simp [handledElem, Kind.code] at helem
  all_goals simp [handledKind, handledScalar, handledElem, Kind.code] at hk

/-- Witness for C9 at concrete inputs: both casters agree on a successful
int cast, a failing strict bool cast, and a lenient `[]int` cast of a
mixed string slice. -/
theorem claim9_witness :
    handledKind Kind.Int8 Kind.Invalid = true
    ∧ setRefectValue pStrict Kind.Int8 Kind.Invalid (.vString "300") =
        setFieldValue pStrict Kind.Int8 Kind.Invalid (.vString "300")
    ∧ handledKind Kind.Bool Kind.Invalid = true
    ∧ setRefectValue pStrict Kind.Bool Kind.Invalid (.vString "zzz") =
        setFieldValue pStrict Kind.Bool Kind.Invalid (.vString "zzz")
    ∧ handledKind Kind.Slice Kind.Int = true
    ∧ setRefectValue pW Kind.Slice Kind.Int (.vStringSlice ["4", "x"]) =
        setFieldValue pW Kind.Slice Kind.Int (.vStringSlice ["4", "x"]) := by
  refine ⟨by decide, ?_, by decide, ?_, by decide, ?_⟩
  · exact claim9_caster_equivalence pStrict Kind.Int8 Kind.Invalid (.vString "300") (by decide)
  · exact claim9_caster_equivalence pStrict Kind.Bool Kind.Invalid (.vString "zzz") (by decide)
  · exact claim9_caster_equivalence pW Kind.Slice Kind.Int (.vStringSlice ["4", "x"]) (by decide)

/-! ### Slice-loop lemmas (C4, C10) -/

theorem doParseSliceLoop_ok (p : Pagser) (t : Ty) (doc : Doc) (stackValues : List Ty) :
    ∀ (nodes : List Nat) (xs : List Val) (i : Nat) (ys : List Val),
    doParseSliceLoop p t xs i nodes doc stackValues = .ok ys →
    ys.length = xs.length
    ∧ (∀ j, j < i ∨ i + nodes.length ≤ j → ys[j]? = xs[j]?)
    ∧ (∀ (d : Val) (k : Nat), k < nodes.length →
        doParse p t ((xs[i + k]?).getD d) stackValues ⟨doc, [(nodes[k]?).getD 0]⟩
          = .ok ((ys[i + k]?).getD d)) := by
  intro nodes
  induction nodes with
  | nil =>
    intro xs i ys h
    rw [doParseSliceLoop] at h
    cases h
    exact ⟨rfl, fun j _ => rfl, fun d k hk => absurd hk (by simp)⟩
  | cons nd rest ih =>
    intro xs i ys h
    rw [doParseSliceLoop] at h
    by_cases hlt : i < xs.length
    · rw [dif_pos hlt] at h
      cases hp : doParse p t (xs.get ⟨i, hlt⟩) stackValues ⟨doc, [nd]⟩ with
      | error e =>
        rw [hp] at h
        cases h
      | ok v2 =>
        rw [hp] at h
        obtain ⟨hlen, hframe, helems⟩ := ih (xs.set i v2) (i + 1) ys h
        have hlen2 : ys.length = xs.length := by rw [hlen, List.length_set]
        refine ⟨hlen2, ?_, ?_⟩
        · intro j hj
          have hfr : ys[j]? = (xs.set i v2)[j]? := by
            apply hframe
            rcases hj with hj | hj
            · exact Or.inl (by omega)
            · simp only [List.length_cons] at hj
              exact Or.inr (by omega)
          have hne : i ≠ j := by
            rcases hj with hj | hj
            · omega
            · simp only [List.length_cons] at hj
              omega
          rw [hfr, List.getElem?_set_ne hne]
        · intro d k hk
          cases k with
          | zero =>
            have hx : (xs[i + 0]?).getD d = xs.get ⟨i, hlt⟩ := by
              simp [List.getElem?_eq_getElem hlt]
            have hy : ys[i + 0]? = some v2 := by
              have hfr := hframe (i + 0) (Or.inl (by omega))
              rw [hfr]
              simpa using List.getElem?_set_self hlt
            rw [hx, hy]
            simpa using hp
          | succ k2 =>
            have hk2 : k2 < rest.length := by
              simp only [List.length_cons] at hk
              omega
            have hel := helems d k2 hk2
            have hne : i ≠ i + 1 + k2 := by omega
            rw [List.getElem?_set_ne hne] at hel
            have harith : i + (k2 + 1) = i + 1 + k2 := by omega
            rw [harith]
            simpa using hel
    · rw [dif_neg hlt] at h
      cases h

theorem doParseSliceLoop_not_ok (p : Pagser) (t : Ty) (doc : Doc) (stackValues : List Ty) :
    ∀ (nodes : List Nat) (xs : List Val) (i : Nat), i ≤ xs.length →
    xs.length < i + nodes.length →
    ∀ ys, doParseSliceLoop p t xs i nodes doc stackValues ≠ .ok ys := by
  intro nodes
  induction nodes with
  | nil =>
    intro xs i h1 h2 ys
    simp only [List.length_nil] at h2
    omega
  | cons nd rest ih =>
    intro xs i h1 h2 ys h
    rw [doParseSliceLoop] at h
    by_cases hlt : i < xs.length
    · rw [dif_pos hlt] at h
      cases hp : doParse p t (xs.get ⟨i, hlt⟩) stackValues ⟨doc, [nd]⟩ with
      | error e =>
        rw [hp] at h
        cases h
      | ok v2 =>
        rw [hp] at h
        refine ih (xs.set i v2) (i + 1) ?_ ?_ ys h
        · rw [List.length_set]; omega
        · rw [List.length_set]
          simp only [List.length_cons] at h2
          omega
    · rw [dif_neg hlt] at h
      cases h

/-- C4: binding a slice field whose incoming value is the nil slice (the
state `reflect.MakeSlice` is there to handle) allocates exactly one element
per matched node: a successful bind returns a slice whose length is the
selection's size, whose `k`-th element is the result of recursing into the
element shape with the `k`-th matched node (from the zero element value the
allocation provides); the result is always slice-shaped of that length, and
a selector matching zero nodes yields the zero-length — not absent —
slice. -/
theorem claim4_slice_count_and_positional (p : Pagser) (t : Ty) (stackValues : List Ty)
    (sel : Selection) :
    (∀ ys, doParse p (.slice t) (.slice none) stackValues sel = .ok (.slice (some ys)) →
      ys.length = sel.size
      ∧ ∀ k, k < sel.size →
          doParse p t (zeroVal t) stackValues ⟨sel.doc, [(sel.nodes[k]?).getD 0]⟩
            = .ok (ys.getD k (zeroVal t)))
    ∧ (∀ w, doParse p (.slice t) (.slice none) stackValues sel = .ok w →
        ∃ ys, w = .slice (some ys) ∧ ys.length = sel.size)
    ∧ (sel.nodes = [] →
        doParse p (.slice t) (.slice none) stackValues sel = .ok (.slice (some []))) := by
  have hstart : doParse p (.slice t) (.slice none) stackValues sel =
      match doParseSliceLoop p t (List.replicate sel.nodes.length (zeroVal t)) 0 sel.nodes
          sel.doc stackValues with
      | .error e => .error e
      | .ok xs => .ok (.slice (some xs)) := by
    rw [doParse, doParseSlice]
    simp [sliceVals]
  refine ⟨?_, ?_, ?_⟩
  · intro ys h
    rw [hstart] at h
    cases hloop : doParseSliceLoop p t (List.replicate sel.nodes.length (zeroVal t)) 0 sel.nodes
        sel.doc stackValues with
    | error e =>
      rw [hloop] at h
      cases h
    | ok xs =>
      rw [hloop] at h
      simp only [Except.ok.injEq, Val.slice.injEq, Option.some.injEq] at h
      rw [h] at hloop
      obtain ⟨hlen, _, helems⟩ := doParseSliceLoop_ok p t sel.doc stackValues sel.nodes
        (List.replicate sel.nodes.length (zeroVal t)) 0 ys hloop
      constructor
      · simpa [Selection.size] using hlen
      · intro k hk
        have hk2 : k < sel.nodes.length := hk
        have hel := helems (zeroVal t) k hk2
        rw [List.getElem?_replicate_of_lt (by simpa using hk2)] at hel
        simpa [List.getD_eq_getElem?_getD] using hel
  · intro w h
    rw [hstart] at h
    cases hloop : doParseSliceLoop p t (List.replicate sel.nodes.length (zeroVal t)) 0 sel.nodes
        sel.doc stackValues with
    | error e =>
      rw [hloop] at h
      cases h
    | ok xs =>
      rw [hloop] at h
      obtain ⟨hlen, _, _⟩ := doParseSliceLoop_ok p t sel.doc stackValues sel.nodes
        (List.replicate sel.nodes.length (zeroVal t)) 0 xs hloop
      cases h
      exact ⟨xs, rfl, by simpa [Selection.size] using hlen⟩
  · intro hempty
    rw [hstart, hempty]
    rw [doParseSliceLoop]
    simp

/-- C10: binding into an already non-nil slice value does not allocate a
slice sized to the match count — the loop writes in place at index `i` of
the existing slice. A successful bind keeps the existing length, leaves
every position at or beyond the match count unchanged, and overwrites
position `k < count` with the recursion on the `k`-th matched node from the
existing element; and when the existing slice is shorter than the match
count the bind can never complete — in particular with an empty existing
slice and a nonempty selection it panics on the first out-of-range index. -/
theorem claim10_nonnil_slice_in_place (p : Pagser) (t : Ty) (stackValues : List Ty)
    (sel : Selection) (xs : List Val) :
    (∀ ys, doParse p (.slice t) (.slice (some xs)) stackValues sel = .ok (.slice (some ys)) →
      ys.length = xs.length
      ∧ (∀ j, sel.size ≤ j → ys[j]? = xs[j]?)
      ∧ ∀ (d : Val) (k : Nat), k < sel.size →
          doParse p t ((xs[k]?).getD d) stackValues ⟨sel.doc, [(sel.nodes[k]?).getD 0]⟩
            = .ok ((ys[k]?).getD d))
    ∧ (xs.length < sel.size →
        ∀ w, doParse p (.slice t) (.slice (some xs)) stackValues sel ≠ .ok w)
    ∧ (xs = [] → 0 < sel.size →
        doParse p (.slice t) (.slice (some xs)) stackValues sel =
          .error (.panicked "reflect: slice index out of range")) := by
  have hstart : doParse p (.slice t) (.slice (some xs)) stackValues sel =
      match doParseSliceLoop p t xs 0 sel.nodes sel.doc stackValues with
      | .error e => .error e
      | .ok xs2 => .ok (.slice (some xs2)) := by
    rw [doParse, doParseSlice]
    simp [sliceVals]
  refine ⟨?_, ?_, ?_⟩
  · intro ys h
    rw [hstart] at h
    cases hloop : doParseSliceLoop p t xs 0 sel.nodes sel.doc stackValues with
    | error e =>
      rw [hloop] at h
      cases h
    | ok xs2 =>
      rw [hloop] at h
      simp only [Except.ok.injEq, Val.slice.injEq, Option.some.injEq] at h
      rw [h] at hloop
      obtain ⟨hlen, hframe, helems⟩ := doParseSliceLoop_ok p t sel.doc stackValues sel.nodes
        xs 0 ys hloop
      refine ⟨hlen, ?_, ?_⟩
      · intro j hj
        exact hframe j (Or.inr (by simpa [Selection.size] using hj))
      · intro d k hk
        have hel := helems d k hk
        simpa using hel
  · intro hshort w h
    rw [hstart] at h
    cases hloop : doParseSliceLoop p t xs 0 sel.nodes sel.doc stackValues with
    | error e =>
      rw [hloop] at h
      cases h
    | ok xs2 =>
      exact doParseSliceLoop_not_ok p t sel.doc stackValues sel.nodes xs 0 (by omega)
        (by simpa [Selection.size] using hshort) xs2 hloop
  · intro hnil hpos
    subst hnil
    rw [hstart]
    cases hns : sel.nodes with
    | nil =>
      simp [Selection.size, hns] at hpos
    | cons nd rest =>
      rw [doParseSliceLoop]
      simp

/-- Witness for C4 on a two-node selection and on an empty selection. -/
theorem claim4_witness :
    doParse pW (.slice (.prim .String)) (.slice none) [] ⟨docW, [3, 4]⟩ =
      .ok (.slice (some [.fv (.fStr "t3"), .fv (.fStr "t4")]))
    ∧ ([Val.fv (.fStr "t3"), .fv (.fStr "t4")] : List Val).length = Selection.size ⟨docW, [3, 4]⟩
    ∧ doParse pW (.prim .String) (zeroVal (.prim .String)) [] ⟨docW, [3]⟩ =
        .ok (.fv (.fStr "t3"))
    ∧ doParse pW (.slice (.prim .String)) (.slice none) [] ⟨docW, []⟩ = .ok (.slice (some [])) := by
  have heval : doParse pW (.slice (.prim .String)) (.slice none) [] ⟨docW, [3, 4]⟩ =
      .ok (.slice (some [.fv (.fStr "t3"), .fv (.fStr "t4")])) := by
    simp [doParse, doParseSlice, doParseSliceLoop, sliceVals]
    exact ⟨rfl, rfl⟩
  have h4 := claim4_slice_count_and_positional pW (.prim .String) [] ⟨docW, [3, 4]⟩
  refine ⟨heval, (h4.1 _ heval).1, ?_, ?_⟩
  · exact (h4.1 _ heval).2 0 (by decide)
  · exact (claim4_slice_count_and_positional pW (.prim .String) [] ⟨docW, []⟩).2.2 rfl

def xsOld : List Val := [.fv (.fStr "o0"), .fv (.fStr "o1"), .fv (.fStr "o2")]

/-- Witness for C10: a one-node selection writes in place into a length-3
existing slice, leaving the tail untouched; an empty existing slice with a
two-node selection cannot complete and panics on the first index. -/
theorem claim10_witness :
    doParse pW (.slice (.prim .String)) (.slice (some xsOld)) [] ⟨docW, [5]⟩ =
      .ok (.slice (some [.fv (.fStr "t5"), .fv (.fStr "o1"), .fv (.fStr "o2")]))
    ∧ ([Val.fv (.fStr "t5"), .fv (.fStr "o1"), .fv (.fStr "o2")] : List Val).length = xsOld.length
    ∧ ([Val.fv (.fStr "t5"), .fv (.fStr "o1"), .fv (.fStr "o2")] : List Val)[2]? = xsOld[2]?
    ∧ List.length ([] : List Val) < Selection.size ⟨docW, [3, 4]⟩
    ∧ doParse pW (.slice (.prim .String)) (.slice (some [])) [] ⟨docW, [3, 4]⟩ ≠
        .ok (.slice (some []))
    ∧ doParse pW (.slice (.prim .String)) (.slice (some [])) [] ⟨docW, [3, 4]⟩ =
        .error (.panicked "reflect: slice index out of range") := by
  have heval : doParse pW (.slice (.prim .String)) (.slice (some xsOld)) [] ⟨docW, [5]⟩ =
      .ok (.slice (some [.fv (.fStr "t5"), .fv (.fStr "o1"), .fv (.fStr "o2")])) := by
    simp [doParse, doParseSlice, doParseSliceLoop, sliceVals, xsOld]
    rfl
  have h10 := claim10_nonnil_slice_in_place pW (.prim .String) [] ⟨docW, [5]⟩ xsOld
  have h10b := claim10_nonnil_slice_in_place pW (.prim .String) [] ⟨docW, [3, 4]⟩ []
  refine ⟨heval, (h10.1 _ heval).1, ?_, by decide, ?_, ?_⟩
  · exact (h10.1 _ heval).2.1 2 (by decide)
  · exact h10b.2.1 (by decide) _
  · exact h10b.2.2 rfl (by decide)
